import Mathlib

/-!
# Verification of the calculator engine and its decimal arithmetic

Shallow embedding of the repository's core: the `big.js` v5.0.3
arbitrary-precision decimal library (bundled in the repository) and the
calculator state-transition engine (`logic/calculate.js`, `logic/operate.js`,
`logic/isNumber.js`), together with theorems checking the specification's
claims about them.

Strings are embedded as lists of characters.  JavaScript `null` field values
are embedded as `Option.none`; the engine's partial state updates are records
of optional fields.  `Big` numbers are triples `(s, e, c)` exactly as in the
source: sign, exponent, digit array (most significant first).
-/

namespace CalcRepo

/-- JavaScript strings, embedded as lists of characters. -/
abbrev Str := List Char

/-- The failure conditions of the decimal library and the engine
(`Error(...)` throws in the source). -/
inductive Err where
  | invalidNumber
  | invalidDp
  | invalidRm
  | divByZero
  | invalidExponent
  | noSqrt
  | unknownOperation
deriving Repr, DecidableEq

/-- A `big.js` number: sign `s` (1 or -1), exponent `e`, digit array `c`
(single decimal digits, most significant first).  Mirrors the fields
`x.s`, `x.e`, `x.c` of the source. -/
structure Big where
  s : Int
  e : Int
  c : List Nat
deriving Repr, DecidableEq

/-- `/[0-9]/` on a single character. -/
def isDigitCh (c : Char) : Bool := '0' ≤ c && c ≤ '9'

/-- Numeric value of a digit character. -/
def digitVal (c : Char) : Nat := c.toNat - 48

/-- Value of a run of digit characters, most significant first
(JavaScript's implicit string-to-number coercion on a digit run). -/
def natOfDigits (l : Str) : Nat := l.foldl (fun a c => 10 * a + digitVal c) 0

/-- JavaScript unary `+` on the exponent suffix of a numeric string:
an optional sign followed by digits. -/
def intOfExpStr : Str → Int
  | '+' :: r => (natOfDigits r : Int)
  | '-' :: r => -(natOfDigits r : Int)
  | r => (natOfDigits r : Int)

/-- Consume a maximal run of digits. -/
def takeDigits (l : Str) : Str × Str := (l.takeWhile isDigitCh, l.dropWhile isDigitCh)

/-- Match the mantissa part `(\d+(\.\d*)?|\.\d+)` of the source's `NUMERIC`
regular expression; returns the unconsumed suffix on success. -/
def matchMantissa (l : Str) : Option Str :=
  if l.head? = some '.' then
    if ((takeDigits l.tail).1).isEmpty then none else some (takeDigits l.tail).2
  else
    if ((takeDigits l).1).isEmpty then none
    else if ((takeDigits l).2).head? = some '.' then
      some (((takeDigits l).2).tail.dropWhile isDigitCh)
    else some (takeDigits l).2

/-- Match the optional exponent suffix `(e[+-]?\d+)?` (case-insensitive)
against the rest of the string, requiring it to consume everything. -/
def matchExp : Str → Bool
  | [] => true
  | c :: r =>
    (c == 'e' || c == 'E') &&
    (let r2 := if r.head? = some '+' ∨ r.head? = some '-' then r.tail else r
     !((takeDigits r2).1).isEmpty && ((takeDigits r2).2).isEmpty)

/-- The source's `NUMERIC = /^-?(\d+(\.\d*)?|\.\d+)(e[+-]?\d+)?$/i`
as an executable matcher. -/
def numericTest (l : Str) : Bool :=
  match matchMantissa (if l.head? = some '-' then l.tail else l) with
  | none => false
  | some rest => matchExp rest

/-- Index of the first character satisfying a predicate (JavaScript's
`indexOf` / `search`). -/
def scanIdx (p : Char → Bool) : Str → Option Nat
  | [] => none
  | c :: r => if p c then some 0 else (scanIdx p r).map (· + 1)

/-- The exponent bookkeeping of the source's `parse`: `dotIdx` is the
index of the removed decimal point, `l2` the dot-free string, `eIdx` the
position of the exponent letter; returns the provisional exponent and the
mantissa digits-with-zeros. -/
def expAdjust (dotIdx : Option Nat) (l2 : Str) (eIdx : Option Nat) : Int × Str :=
  match eIdx with
  | some i =>
    if 0 < i then
      ((match dotIdx with
        | some d2 => (d2 : Int)
        | none => (i : Int)) + intOfExpStr (l2.drop (i + 1)),
       l2.take i)
    else
      ((match dotIdx with
        | some d2 => (d2 : Int)
        | none => (l2.length : Int)), l2)
  | none =>
    ((match dotIdx with
      | some d2 => (d2 : Int)
      | none => (l2.length : Int)), l2)

/-- The zero-stripping tail of the source's `parse`: count leading zeros
(all zeros give the zero value), then strip trailing zeros and adjust the
exponent. -/
def stripZeros (em : Int × Str) : Int × List Nat :=
  if ((em.2).takeWhile (· == '0')).length = (em.2).length then (0, [0])
  else
    (em.1 - ((em.2).takeWhile (· == '0')).length - 1,
      ((((em.2).drop ((em.2).takeWhile (· == '0')).length).reverse.dropWhile
          (· == '0')).reverse).map digitVal)

/-- The magnitude part of the source's `parse(x, n)` on the sign-stripped
string: remove the decimal point recording its index, fold in the exponent
suffix, and strip leading and trailing zeros; returns the exponent and the
digit array. -/
def parseMag (l1 : Str) : Int × List Nat :=
  stripZeros (expAdjust (scanIdx (· == '.') l1) (l1.erase '.')
    (scanIdx (fun c => c == 'e' || c == 'E') (l1.erase '.')))

/-- The body of the source's `parse(x, n)` after the `NUMERIC` test has
passed: determine the sign from a leading minus, then compute the
magnitude from the sign-stripped string. -/
def parseCore (l : Str) : Big :=
  if l.head? = some '-' then ⟨-1, (parseMag l.tail).1, (parseMag l.tail).2⟩
  else ⟨1, (parseMag l).1, (parseMag l).2⟩

/-- Construction of a `Big` from a string (`new Big(str)`): test against
`NUMERIC`, then run the parse body; a non-conforming string throws the
invalid-number error. -/
def parse (l : Str) : Except Err Big :=
  if numericTest l then .ok (parseCore l) else .error .invalidNumber

/-- JavaScript truthiness test `!x.c[0]`: the digit array represents the
zero value (its leading digit is `0`, or it is empty/undefined). -/
def zeroRepr (x : Big) : Bool := x.c.headD 0 = 0

/-- Digit-by-digit comparison as in `P.cmp`'s loop: first differing digit
decides, equal prefixes are decided by length. -/
def cmpSeq : List Nat → List Nat → Int
  | [], [] => 0
  | [], _ :: _ => -1
  | _ :: _, [] => 1
  | a :: as, b :: bs => if a = b then cmpSeq as bs else if a > b then 1 else -1

/-- `P.cmp`: -1/0/1 comparison.  Zeros of either sign compare equal;
otherwise by sign, then exponent, then digits. -/
def cmp (x y : Big) : Int :=
  if zeroRepr x || zeroRepr y then
    if zeroRepr x then (if zeroRepr y then 0 else -y.s) else x.s
  else if x.s ≠ y.s then x.s
  else
    let isneg := x.s < 0
    if x.e ≠ y.e then
      (if (decide (x.e > y.e)) = isneg then -1 else 1)
    else
      (if isneg then -cmpSeq x.c y.c else cmpSeq x.c y.c)

/-- Sign flip (the source writes `y.s = -b`). -/
def negB (x : Big) : Big := { x with s := -x.s }

/-- Digit-wise addition of two equal-length runs, least significant first,
with carry; returns the digits and the outgoing carry (the carry loop of
`P.plus`). -/
def addRev : List Nat → List Nat → Nat → List Nat × Nat
  | [], _, c => ([], c)
  | _ :: _, [], c => ([], c)
  | a :: as, b :: bs, c =>
    let t := a + b + c
    let (r, co) := addRev as bs (t / 10)
    (t % 10 :: r, co)

/-- Digit-wise borrow subtraction of two runs, least significant first
(the borrow loop of `P.minus`); the left run is at least the right one. -/
def subRev : List Nat → List Nat → Nat → List Nat
  | [], _, _ => []
  | a :: as, [], br =>
    if br ≤ a then (a - br) :: subRev as [] 0
    else (10 + a - br) :: subRev as [] 1
  | a :: as, b :: bs, br =>
    if b + br ≤ a then (a - (b + br)) :: subRev as bs 0
    else (10 + a - (b + br)) :: subRev as bs 1

/-- Remove trailing zero digits (`for (; xc[--b] === 0;) xc.pop()`). -/
def stripTrailingZeros (l : List Nat) : List Nat := ((l.reverse).dropWhile (· = 0)).reverse

/-- Number of leading zero digits. -/
def leadZeroCount (l : List Nat) : Nat := (l.takeWhile (· = 0)).length

/-- The body of `P.plus` once both operands have the same sign: align
exponents by prepending zeros to the smaller-exponent digit array, add the
shorter array into the longer one's prefix with carry, unshift a final
carry, and strip trailing zeros. -/
def plusSame (x y : Big) : Big :=
  if zeroRepr x || zeroRepr y then
    (if !zeroRepr y then y else if !zeroRepr x then x else ⟨x.s, 0, [0]⟩)
  else
    let xc := if x.e < y.e then List.replicate (y.e - x.e).toNat 0 ++ x.c else x.c
    let yc := if y.e < x.e then List.replicate (x.e - y.e).toNat 0 ++ y.c else y.c
    let e := max x.e y.e
    let p := if xc.length < yc.length then (yc, xc) else (xc, yc)
    let k := (p.2).length
    let pre := (p.1).take k
    let tl := (p.1).drop k
    let rc := addRev pre.reverse (p.2).reverse 0
    let summed := (rc.1).reverse ++ tl
    let digits := if rc.2 ≠ 0 then rc.2 :: summed else summed
    let e2 := if rc.2 ≠ 0 then e + 1 else e
    ⟨x.s, e2, stripTrailingZeros digits⟩

/-- The body of `P.minus` once both operands have the same sign: align
exponents, decide which operand has the larger magnitude (`xlty`), subtract
the smaller from the larger with borrow, then strip trailing zeros, strip
leading zeros adjusting the exponent, and normalize an all-zero result to
`+0`. -/
def minusSame (x y : Big) : Big :=
  if zeroRepr x || zeroRepr y then
    (if !zeroRepr y then negB y else if !zeroRepr x then x else ⟨1, 0, [0]⟩)
  else
    let xc0 := if x.e < y.e then List.replicate (y.e - x.e).toNat 0 ++ x.c else x.c
    let yc0 := if y.e < x.e then List.replicate (x.e - y.e).toNat 0 ++ y.c else y.c
    let e := max x.e y.e
    let xlty := if x.e ≠ y.e then x.e < y.e else cmpSeq x.c y.c = -1
    let p := if xlty then (yc0, xc0) else (xc0, yc0)
    let sign := if xlty then -x.s else x.s
    let k := (p.2).length
    let bc := if (p.1).length < k then p.1 ++ List.replicate (k - (p.1).length) 0 else p.1
    let pre := bc.take k
    let tl := bc.drop k
    let diff := (subRev pre.reverse (p.2).reverse 0).reverse ++ tl
    let d1 := stripTrailingZeros diff
    let lead := leadZeroCount d1
    let d2 := d1.drop lead
    if d2.isEmpty then ⟨1, 0, [0]⟩ else ⟨sign, e - lead, d2⟩

/-- `P.minus`: signs differ delegates to addition of same-signed values. -/
def minus (x y : Big) : Big :=
  if x.s ≠ y.s then plusSame x (negB y) else minusSame x y

/-- `P.plus`: signs differ delegates to subtraction of same-signed values. -/
def plus (x y : Big) : Big :=
  if x.s ≠ y.s then minusSame x (negB y) else plusSame x y

/-- One row of schoolbook multiplication: a digit run (least significant
first) times a single digit, with carry. -/
def mulRow (d : Nat) : List Nat → Nat → List Nat
  | [], c => if c = 0 then [] else [c]
  | a :: as, c =>
    let t := d * a + c
    t % 10 :: mulRow d as (t / 10)

/-- Add a carry into a digit run, least significant first. -/
def addCarry : List Nat → Nat → List Nat
  | [], c => if c = 0 then [] else [c]
  | y :: ys, c =>
    let t := y + c
    t % 10 :: addCarry ys (t / 10)

/-- Add two digit runs of arbitrary lengths, least significant first. -/
def addLsb : List Nat → List Nat → Nat → List Nat
  | [], ys, c => addCarry ys c
  | x :: xs, [], c =>
    let t := x + c
    t % 10 :: addLsb xs [] (t / 10)
  | x :: xs, y :: ys, c =>
    let t := x + y + c
    t % 10 :: addLsb xs ys (t / 10)

/-- Schoolbook accumulation of `P.times`: every digit of one operand
against every digit of the other, with carry propagation; both runs and
the result are least significant first. -/
def mulAcc : List Nat → List Nat → List Nat
  | [], _ => []
  | d :: ds, xcR => addLsb (mulRow d xcR 0) (0 :: mulAcc ds xcR) 0

/-- `P.times`: sign is the XOR of the operand signs, zero operands give a
signed zero, and the digit convolution's length determines whether the
result exponent is `x.e + y.e` or `x.e + y.e + 1` (the source tests the
final carry and shifts a leading zero otherwise). -/
def times (x y : Big) : Big :=
  let s : Int := if x.s = y.s then 1 else -1
  if zeroRepr x || zeroRepr y then ⟨s, 0, [0]⟩
  else
    let prodR := mulAcc (y.c).reverse (x.c).reverse
    let msb := prodR.reverse
    let fullLen := x.c.length + y.c.length
    let e : Int := x.e + y.e + 1 - ((fullLen - msb.length : Nat) : Int)
    ⟨s, e, stripTrailingZeros msb⟩

/-- Increment a digit run (least significant first), as the carry loop of
the source's `round`: returns the digits and whether the carry escaped the
front (in which case the source unshifts a `1` and increments `x.e`). -/
def incRev : List Nat → List Nat × Bool
  | [] => ([], true)
  | d :: ds =>
    if d + 1 ≤ 9 then ((d + 1) :: ds, false)
    else
      let rc := incRev ds
      (0 :: rc.1, rc.2)

/-- The source's internal `round(x, dp, rm, more)`: round `x` to `dp`
decimal places with rounding mode `rm` (0 truncate, 1 half-up, 2 half-even,
3 away from zero); `more` records whether a division truncated a nonzero
remainder.  Throws the invalid-rounding-mode error on an unrecognized
mode. -/
def roundCore (x : Big) (dp : Int) (rm : Nat) (more : Bool) : Except Err Big :=
  let i : Int := x.e + dp + 1
  if i < (x.c.length : Int) then
    let atI : Option Nat := if i < 0 then none else x.c.get? i.toNat
    let more2 : Except Err Bool :=
      if rm = 1 then .ok (atI.getD 0 ≥ 5)
      else if rm = 2 then
        .ok (match atI with
          | none => false
          | some d =>
            d > 5 || (d = 5 && (more || i < 0 || (i + 1 < (x.c.length : Int)) ||
              (decide (1 ≤ i) && x.c.getD (i - 1).toNat 0 % 2 = 1))))
      else if rm = 3 then .ok (more || atI.isSome || i < 0)
      else if rm = 0 then .ok false
      else .error .invalidRm
    match more2 with
    | .error er => .error er
    | .ok m2 =>
      if i < 1 then
        if m2 then .ok ⟨x.s, -dp, [1]⟩ else .ok ⟨x.s, 0, [0]⟩
      else
        let kept := x.c.take i.toNat
        let de : List Nat × Int :=
          if m2 then
            let rc := incRev kept.reverse
            if rc.2 then (1 :: (rc.1).reverse, x.e + 1) else ((rc.1).reverse, x.e)
          else (kept, x.e)
        .ok ⟨x.s, de.2, stripTrailingZeros de.1⟩
  else if rm > 3 then .error .invalidRm
  else .ok x

/-- Maximum decimal places / rounding precision (`MAX_DP = 1E6`). -/
def MAX_DP : Nat := 1000000

/-- Maximum power exponent magnitude (`MAX_POWER = 1E6`). -/
def MAX_POWER : Nat := 1000000

/-- `P.round(dp, rm)`: validates the decimal-place count, then rounds. -/
def roundB (dp : Int) (rm : Nat) (x : Big) : Except Err Big :=
  if dp < 0 ∨ dp > (MAX_DP : Int) then .error .invalidDp
  else roundCore x dp rm false

/-- Length-then-lexicographic comparison of divisor and remainder digit
runs, as in the inner comparison of `P.div` (valid because neither run has
leading zeros). -/
def cmpLenLex (b r : List Nat) : Int :=
  if b.length ≠ r.length then (if b.length > r.length then 1 else -1)
  else cmpSeq b r

/-- One aligned borrow subtraction of the divisor from the remainder
(`bt` is the divisor, possibly with an extra leading zero when the
remainder is one digit longer). -/
def subDigits (r bt : List Nat) : List Nat :=
  (subRev r.reverse bt.reverse 0).reverse

/-- The subtract-and-count inner loop of `P.div` (`for (n = 0; n < 10; n++)`):
how many times the divisor goes into the current remainder.  Returns the
count, the reduced remainder, and the final comparison result. -/
def divDigit (b bz : List Nat) : Nat → List Nat → Nat × List Nat × Int
  | 0, r => (0, r, -1)
  | fuel + 1, r =>
    let c := cmpLenLex b r
    if c < 0 then
      let bt := if r.length = b.length then b else bz
      let r2 := (subDigits r bt).dropWhile (· = 0)
      let nrc := divDigit b bz fuel r2
      (nrc.1 + 1, nrc.2.1, nrc.2.2)
    else (0, r, c)

/-- The outer quotient-digit loop of `P.div`.  `fuel` is the source's `k`
(the remaining decimal-place budget, decremented once per iteration of the
`do`/`while`); `ai` indexes the next dividend digit to bring down; `r` is
the running remainder and `qc` the quotient digits produced so far.
Returns the quotient digits and the final remainder (the remainder is `[]`
exactly when the source's `r[0]` is `undefined`). -/
def divLoop (a b bz : List Nat) (al : Nat) :
    Nat → Nat → List Nat → List Nat → List Nat × List Nat
  | fuel, ai, r, qc =>
    let nrc := divDigit b bz 10 r
    let digit := if nrc.2.2 ≠ 0 then nrc.1 else nrc.1 + 1
    let qc2 := qc ++ [digit]
    let r2 :=
      if nrc.2.1.headD 0 ≠ 0 ∧ nrc.2.2 ≠ 0 then nrc.2.1 ++ [a.getD ai 0]
      else
        (match a.get? ai with
         | some d => [d]
         | none => [])
    match fuel with
    | 0 => (qc2, r2)
    | f + 1 =>
      if ai < al ∨ r2 ≠ [] then divLoop a b bz al f (ai + 1) r2 qc2
      else (qc2, r2)

/-- `P.div` with the rounding configuration `(dp, rm)` read at call time
(`Big.DP`, `Big.RM` in the source; the defaults are 20 and 1): long
division producing `dp + (x.e - y.e) + 1` quotient digits, followed by
removal of a single leading zero and rounding when the digit budget was
exceeded.  Throws on an invalid decimal-places count and on a zero
divisor; a zero dividend returns a signed zero. -/
def divB (dp : Int) (rm : Nat) (x y : Big) : Except Err Big :=
  if dp < 0 ∨ dp > (MAX_DP : Int) then .error .invalidDp
  else if zeroRepr y then .error .divByZero
  else
    let k : Int := if x.s = y.s then 1 else -1
    if zeroRepr x then .ok ⟨k, 0, [0]⟩
    else
      let a := x.c
      let b := y.c
      let bl := b.length
      let al := a.length
      let bz := 0 :: b
      let r0 := a.take bl ++ List.replicate (bl - (a.take bl).length) 0
      let e0 : Int := x.e - y.e
      let d : Int := dp + e0 + 1
      let kFuel : Nat := if d < 0 then 0 else d.toNat
      let qr := divLoop a b bz al kFuel bl r0 []
      let qi := (qr.1).length
      let qe : List Nat × Int :=
        if (qr.1).headD 1 = 0 ∧ qi ≠ 1 then ((qr.1).tail, e0 - 1) else (qr.1, e0)
      let q : Big := ⟨k, qe.2, qe.1⟩
      if (qi : Int) > d then roundCore q dp rm (!(qr.2).isEmpty) else .ok q

/-- `P.mod`: compares absolute values first (a larger divisor returns the
dividend unchanged), otherwise composes a zero-decimal-places truncating
division with multiplication and subtraction. -/
def modB (x y : Big) : Except Err Big :=
  if zeroRepr y then .error .divByZero
  else if cmp { y with s := 1 } { x with s := 1 } = 1 then .ok x
  else
    match divB 0 0 x y with
    | .error er => .error er
    | .ok q => .ok (minus x (times q y))

/-- The square-and-multiply loop of `P.pow` on a nonnegative exponent. -/
def powLoop : Nat → Big → Big → Big
  | 0, _, y => y
  | n + 1, x, y =>
    let y2 := if (n + 1) % 2 = 1 then times y x else y
    match h : (n + 1) / 2 with
    | 0 => y2
    | m + 1 => powLoop (m + 1) (times x x) y2
termination_by n _ _ => n
decreasing_by
  omega

/-- `P.pow(n)`: integer exponents within `±MAX_POWER` only; a negative
exponent takes the reciprocal of the positive-exponent result via division
under the rounding configuration. -/
def powB (dp : Int) (rm : Nat) (x : Big) (n : Int) : Except Err Big :=
  if n < -(MAX_POWER : Int) ∨ n > (MAX_POWER : Int) then .error .invalidExponent
  else
    let res := powLoop n.natAbs x ⟨1, 0, [1]⟩
    if n < 0 then divB dp rm ⟨1, 0, [1]⟩ res else .ok res

/-- The Newton-Raphson loop of `P.sqrt` (`r' = half · (t + x/t)`),
iterating until two successive iterates agree on the first `ePrec` digits;
computed at `dp + 4` internal decimal places and rounded to `dp` at the
end.  The loop is guaranteed to terminate in the source; `fuel` makes the
recursion structural, and on exhaustion the current iterate is rounded
exactly as the loop exit would. -/
def sqrtNewton (dp : Int) (rm : Nat) (x half : Big) (ePrec : Int) :
    Nat → Big → Except Err Big
  | 0, r => roundCore r dp rm false
  | fuel + 1, r =>
    match divB (dp + 4) rm x r with
    | .error er => .error er
    | .ok xr =>
      let r2 := times half (plus r xr)
      if r.c.take ePrec.toNat = r2.c.take ePrec.toNat then roundCore r2 dp rm false
      else sqrtNewton dp rm x half ePrec fuel r2

/-- `P.sqrt`: zero returns itself (sign preserved), negative inputs throw
the no-square-root error; otherwise Newton-Raphson from an initial
estimate.  The source's estimate comes from the host's floating-point
`Math.sqrt` (with a digit-count fallback on underflow/overflow), which a
shallow embedding over exact arithmetic cannot reproduce; the estimate is
therefore a parameter `est`, and the iteration count a fuel parameter. -/
def sqrtB (dp : Int) (rm : Nat) (est : Big) (fuel : Nat) (x : Big) : Except Err Big :=
  if zeroRepr x then .ok x
  else if x.s < 0 then .error .noSqrt
  else
    let half : Big := ⟨1, -1, [5]⟩
    let ePrec : Int := est.e + (dp + 4)
    sqrtNewton dp rm x half ePrec fuel est

/-- The decimal rendering of a natural number. -/
def natStr (n : Nat) : Str :=
  if n = 0 then ['0'] else ((Nat.digits 10 n).reverse.map Nat.digitChar)

/-- The decimal rendering of an integer (JavaScript number-to-string on an
integer-valued number). -/
def intStr (i : Int) : Str :=
  if i < 0 then '-' :: natStr i.natAbs else natStr i.natAbs

/-- The unsigned body built by `stringify`: canonical notation, switching
to exponential notation when the exponent leaves the
`(Big.NE, Big.PE) = (-7, 21)` window. -/
def canonBody (e : Int) (ds : Str) : Str :=
  if e ≤ -7 ∨ e ≥ 21 then
    ds.take 1 ++ (if ds.length > 1 then '.' :: ds.drop 1 else []) ++
      (if e < 0 then 'e' :: intStr e else 'e' :: '+' :: natStr e.natAbs)
  else if e < 0 then
    '0' :: '.' :: (List.replicate (-e - 1).toNat '0' ++ ds)
  else if e > 0 then
    if e + 1 > (ds.length : Int) then ds ++ List.replicate (e + 1 - ds.length).toNat '0'
    else if e + 1 < (ds.length : Int) then
      ds.take (e + 1).toNat ++ '.' :: ds.drop (e + 1).toNat
    else ds
  else
    if ds.length > 1 then ds.take 1 ++ '.' :: ds.drop 1 else ds

/-- `stringify(x)` with no caller argument, as used by `P.toString`: the
canonical body with a `-` prefix for negative nonzero values; negative
zero is rendered without its sign. -/
def stringifyCanon (x : Big) : Str :=
  if x.s < 0 ∧ ¬zeroRepr x then '-' :: canonBody x.e (x.c.map Nat.digitChar)
  else canonBody x.e (x.c.map Nat.digitChar)

/-! ## The calculator engine (`logic/calculate.js`, `logic/operate.js`) -/

/-- JavaScript string coercion of an engine state field (`n += ''` in the
source's `parse`): a `null` field coerces to the string `"null"`. -/
def jsCoerce : Option Str → Str
  | some s => s
  | none => ['n', 'u', 'l', 'l']

/-- `operate(numberOne, numberTwo, operation)`: construct both operands as
`Big`s, dispatch on the operator symbol (`+ - x ÷ %`, the exact button
glyphs), and render the result with `toString`; an unrecognized symbol
throws the unknown-operation error. -/
def operate (a b : Option Str) (op : Str) : Except Err Str :=
  match parse (jsCoerce a) with
  | .error er => .error er
  | .ok one =>
    match parse (jsCoerce b) with
    | .error er => .error er
    | .ok two =>
      if op = ['+'] then .ok (stringifyCanon (plus one two))
      else if op = ['-'] then .ok (stringifyCanon (minus one two))
      else if op = ['x'] then .ok (stringifyCanon (times one two))
      else if op = ['÷'] then
        match divB 20 1 one two with
        | .error er => .error er
        | .ok q => .ok (stringifyCanon q)
      else if op = ['%'] then
        match modB one two with
        | .error er => .error er
        | .ok m => .ok (stringifyCanon m)
      else .error .unknownOperation

/-- The calculator state: three fields, each either absent (`null`) or a
string-encoded decimal in progress. -/
structure CalcState where
  total : Option Str
  next : Option Str
  operation : Option Str
deriving Repr, DecidableEq

/-- The initial state (`{total: null, next: null, operation: null}`). -/
def emptyState : CalcState := ⟨none, none, none⟩

/-- A partial state update: each field is either absent from the update
(outer `none`, leave unchanged) or present with a new value. -/
structure Update where
  total : Option (Option Str) := none
  next : Option (Option Str) := none
  operation : Option (Option Str) := none
deriving Repr, DecidableEq

/-- JavaScript truthiness of a state field: `null` and the empty string
are falsy, every other string is truthy. -/
def jsTruthy : Option Str → Bool
  | none => false
  | some s => !s.isEmpty

/-- `isNumber(item)`: `!!item.match(/[0-9]+/)` — the button name contains
at least one digit. -/
def isNumber (item : Str) : Bool := item.any isDigitCh

/-- `calculate(obj, buttonName)`: the engine's decision table.  The
sign-toggle branch re-stringifies through the host's floating-point `parseFloat` and
`Number.prototype.toString`, which exact arithmetic cannot reproduce; that
re-stringification is the parameter `neg`.  No other branch depends on
`neg`. -/
def calculate (neg : Str → Str) (obj : CalcState) (buttonName : Str) : Except Err Update :=
  if buttonName = ['A', 'C'] then
    .ok { total := some none, next := some none, operation := some none }
  else if isNumber buttonName then
    if buttonName = ['0'] ∧ obj.next = some ['0'] then .ok {}
    else if jsTruthy obj.operation then
      (if jsTruthy obj.next then .ok { next := some (some (obj.next.getD [] ++ buttonName)) }
       else .ok { next := some (some buttonName) })
    else if jsTruthy obj.next then
      .ok { next := some (some (obj.next.getD [] ++ buttonName)), total := some none }
    else .ok { next := some (some buttonName), total := some none }
  else if buttonName = ['.'] then
    if jsTruthy obj.next then
      (if (obj.next.getD []).contains '.' then .ok {}
       else .ok { next := some (some (obj.next.getD [] ++ ['.'])) })
    else if jsTruthy obj.operation then .ok { next := some (some ['0', '.']) }
    else if jsTruthy obj.total then
      (if (obj.total.getD []).contains '.' then .ok {}
       else .ok { total := some (some (obj.total.getD [] ++ ['.'])) })
    else .ok { total := some (some ['0', '.']) }
  else if buttonName = ['='] then
    if jsTruthy obj.next ∧ jsTruthy obj.operation then
      match operate obj.total obj.next (obj.operation.getD []) with
      | .error er => .error er
      | .ok t => .ok { total := some (some t), next := some none, operation := some none }
    else .ok {}
  else if buttonName = ['+', '/', '-'] then
    if jsTruthy obj.next then .ok { next := some (some (neg (obj.next.getD []))) }
    else if jsTruthy obj.total then .ok { total := some (some (neg (obj.total.getD []))) }
    else .ok {}
  else
    if jsTruthy obj.operation then
      match operate obj.total obj.next (obj.operation.getD []) with
      | .error er => .error er
      | .ok t =>
        .ok { total := some (some t), next := some none, operation := some (some buttonName) }
    else if !jsTruthy obj.next then .ok { operation := some (some buttonName) }
    else .ok { total := some obj.next, next := some none, operation := some (some buttonName) }

/-- The caller's merge of a partial update into the persisted state
(React's `setState` / the web component's `for (let c in calc)` loop):
fields present in the update overwrite, absent fields are kept. -/
def applyUpdate (st : CalcState) (u : Update) : CalcState :=
  { total := u.total.getD st.total
    next := u.next.getD st.next
    operation := u.operation.getD st.operation }

/-- One button press as the UI drives it: compute the update and merge it. -/
def press (neg : Str → Str) (st : CalcState) (b : Str) : Except Err CalcState :=
  (calculate neg st b).map (applyUpdate st)

/-- A sequence of button presses from a starting state; a thrown error
propagates (the engine performs no recovery). -/
def pressAll (neg : Str → Str) (st : CalcState) : List Str → Except Err CalcState
  | [] => .ok st
  | b :: bs =>
    match press neg st b with
    | .error er => .error er
    | .ok st2 => pressAll neg st2 bs

/-! ## Definitions used by the verification statements -/

instance exceptDecEq {ε α : Type} [DecidableEq ε] [DecidableEq α] :
    DecidableEq (Except ε α) := fun x y =>
  match x, y with
  | .ok a, .ok b =>
    if h : a = b then .isTrue (by rw [h]) else .isFalse (by simp [h])
  | .error a, .error b =>
    if h : a = b then .isTrue (by rw [h]) else .isFalse (by simp [h])
  | .ok _, .error _ => .isFalse (by simp)
  | .error _, .ok _ => .isFalse (by simp)

/-- The operator vocabulary of `operate`, in source order. -/
def opVocab : List Str := [['+'], ['-'], ['x'], ['÷'], ['%']]

/-- A button identifier that reaches the final (operator) branch of
`calculate`: none of the earlier branches match it. -/
def isOperatorButton (b : Str) : Prop :=
  b ≠ ['A', 'C'] ∧ isNumber b = false ∧ b ≠ ['.'] ∧ b ≠ ['='] ∧ b ≠ ['+', '/', '-']

instance (b : Str) : Decidable (isOperatorButton b) := by
  unfold isOperatorButton
  infer_instance

/-- A normalized `Big`, as the data-model section describes it: sign `±1`,
digits all single decimal digits with no leading and no trailing zeros,
and the zero value represented as digits `[0]` with exponent `0`. -/
def WellFormed (x : Big) : Prop :=
  (x.s = 1 ∨ x.s = -1) ∧
  ((x.c = [0] ∧ x.e = 0) ∨
    (x.c ≠ [] ∧ (∀ d ∈ x.c, d < 10) ∧ x.c.head? ≠ some 0 ∧ x.c.getLast? ≠ some 0))

instance (x : Big) : Decidable (WellFormed x) := by
  unfold WellFormed
  infer_instance

/-- The construction pattern exactly as the specification sentence states
it: `[-]digits[.digits][e[+|-]digits]` — optionally signed mantissa that
begins with at least one integer digit, optional fractional part, optional
exponent suffix.  (Spec-side pattern, to be compared against the source's
`NUMERIC`.) -/
def specPattern (l : Str) : Prop :=
  ∃ sgn intPart frac expo,
    l = sgn ++ intPart ++ frac ++ expo ∧
    (sgn = [] ∨ sgn = ['-']) ∧
    (intPart ≠ [] ∧ intPart.all isDigitCh) ∧
    (frac = [] ∨ ∃ fd, frac = '.' :: fd ∧ fd ≠ [] ∧ fd.all isDigitCh) ∧
    (expo = [] ∨ ∃ es ed, expo = 'e' :: (es ++ ed) ∧
      (es = [] ∨ es = ['+'] ∨ es = ['-']) ∧ ed ≠ [] ∧ ed.all isDigitCh)

/-- The mantissa shapes of the source's `NUMERIC` regular expression:
`\d+(\.\d*)?` or `\.\d+`. -/
def mantSpec (mant : Str) : Prop :=
  (∃ ip fp, mant = ip ++ fp ∧ ip ≠ [] ∧ ip.all isDigitCh = true ∧
    (fp = [] ∨ ∃ fd, fp = '.' :: fd ∧ fd.all isDigitCh = true)) ∨
  (∃ fd, mant = '.' :: fd ∧ fd ≠ [] ∧ fd.all isDigitCh = true)

/-- The exponent-suffix shape `(e[+-]?\d+)?` of `NUMERIC`,
case-insensitive. -/
def expSpec (expo : Str) : Prop :=
  expo = [] ∨ ∃ ec es ed, expo = ec :: (es ++ ed) ∧ (ec = 'e' ∨ ec = 'E') ∧
    (es = [] ∨ es = ['+'] ∨ es = ['-']) ∧ ed ≠ [] ∧ ed.all isDigitCh = true

/-- Declarative reading of the source's `NUMERIC` regular expression
`^-?(\d+(\.\d*)?|\.\d+)(e[+-]?\d+)?$` (case-insensitive): the mantissa may
also be a bare fraction `.digits`, and a trailing decimal point with no
fractional digits is allowed after integer digits. -/
def numericSpec (l : Str) : Prop :=
  ∃ sgn mant expo,
    l = sgn ++ mant ++ expo ∧ (sgn = [] ∨ sgn = ['-']) ∧ mantSpec mant ∧ expSpec expo

/-! # Theorems -/

/-- `parse` fails only with the invalid-number error. -/
theorem parse_error_invalidNumber {s : Str} {e : Err} (h : parse s = .error e) :
    e = .invalidNumber := by
  unfold parse at h
  split at h <;> simp_all

/-- `operate` with an absent second operand fails with the invalid-number
error whatever the first operand and operator are: the `null` field
coerces to the non-numeric string `"null"`. -/
theorem operate_none_snd (a : Option Str) (op : Str) :
    operate a none op = .error .invalidNumber := by
  unfold operate
  cases h : parse (jsCoerce a) with
  | error e => rw [parse_error_invalidNumber h]
  | ok A => rfl

/-- `operate` with an absent first operand fails with the invalid-number
error immediately. -/
theorem operate_none_fst (b : Option Str) (op : Str) :
    operate none b op = .error .invalidNumber := rfl

/-- A nonempty state field is truthy. -/
theorem jsTruthy_some {s : Str} (h : s ≠ []) : jsTruthy (some s) = true := by
  simp [jsTruthy, h]

/-- A button name containing a digit is nonempty. -/
theorem isNumber_ne_nil {b : Str} (h : isNumber b = true) : b ≠ [] := by
  intro hb
  subst hb
  simp [isNumber] at h

/-- Rounding with a recognized rounding mode cannot fail. -/
theorem roundCore_ok (x : Big) (dp : Int) (rm : Nat) (more : Bool) (h : rm ≤ 3) :
    ∃ z, roundCore x dp rm more = .ok z := by
  unfold roundCore
  interval_cases rm <;> simp <;> split_ifs <;> simp

/-- A conditional between a rounding step and a direct result never
produces the unknown-operation error. -/
theorem ite_roundCore_ne (c : Prop) [Decidable c] (q z : Big) (dp : Int) (rm : Nat)
    (m : Bool) (h : rm ≤ 3) :
    (if c then roundCore q dp rm m else .ok z) ≠ .error .unknownOperation := by
  split
  · obtain ⟨w, hw⟩ := roundCore_ok q dp rm m h
    rw [hw]
    simp
  · simp

/-- Division never fails with the unknown-operation error (for a
recognized rounding mode). -/
theorem divB_no_unknown (dp : Int) (rm : Nat) (x y : Big) (h : rm ≤ 3) :
    divB dp rm x y ≠ .error .unknownOperation := by
  unfold divB
  split
  · simp
  · split
    · simp
    · split <;> split <;>
        first
          | exact ite_roundCore_ne _ _ _ dp rm _ h
          | simp

/-- Modulo never fails with the unknown-operation error. -/
theorem modB_no_unknown (x y : Big) : modB x y ≠ .error .unknownOperation := by
  unfold modB
  split
  · simp
  · split
    · simp
    · split
      · rename_i er heq
        intro hc
        have he : er = .unknownOperation := by injection hc
        exact divB_no_unknown 0 0 x y (by norm_num) (by rw [heq, he])
      · simp

/-- C1, counterexample: `operate` on the Unicode multiplication sign `×`
throws the unknown-operation error instead of returning the product `6`;
the source dispatches multiplication on the ASCII letter `x`. -/
theorem operate_unicode_times_cex :
    operate (some ['2']) (some ['3']) ['×'] = .error .unknownOperation ∧
    operate (some ['2']) (some ['3']) ['×'] ≠ .ok ['6'] ∧
    operate (some ['2']) (some ['3']) ['x'] = .ok ['6'] := by decide

/-- C1 (amended): for decimal-number strings `a` and `b`,
`operate(a, b, op)` with the ASCII letter `x` returns the string form of
the Decimal product, and `operate` fails with an unknown-operation error
exactly when `op` is outside the operator vocabulary `+ - x ÷ %`. -/
theorem operate_mul_ascii_vocab (a b op : Str) (A B : Big)
    (ha : parse a = .ok A) (hb : parse b = .ok B) :
    operate (some a) (some b) ['x'] = .ok (stringifyCanon (times A B)) ∧
    (operate (some a) (some b) op = .error .unknownOperation ↔ op ∉ opVocab) := by
  refine ⟨?_, ?_, ?_⟩
  · unfold operate
    simp only [jsCoerce, ha, hb]
    rfl
  · intro h hop
    unfold operate at h
    simp only [jsCoerce, ha, hb] at h
    by_cases k1 : op = ['+']
    · rw [if_pos k1] at h
      exact Except.noConfusion h
    rw [if_neg k1] at h
    by_cases k2 : op = ['-']
    · rw [if_pos k2] at h
      exact Except.noConfusion h
    rw [if_neg k2] at h
    by_cases k3 : op = ['x']
    · rw [if_pos k3] at h
      exact Except.noConfusion h
    rw [if_neg k3] at h
    by_cases k4 : op = ['÷']
    · rw [if_pos k4] at h
      cases hd : divB 20 1 A B with
      | error e =>
        rw [hd] at h
        have he : e = .unknownOperation := by injection h
        exact divB_no_unknown 20 1 A B (by norm_num) (by rw [hd, he])
      | ok q =>
        rw [hd] at h
        exact Except.noConfusion h
    rw [if_neg k4] at h
    by_cases k5 : op = ['%']
    · rw [if_pos k5] at h
      cases hd : modB A B with
      | error e =>
        rw [hd] at h
        have he : e = .unknownOperation := by injection h
        exact modB_no_unknown A B (by rw [hd, he])
      | ok m =>
        rw [hd] at h
        exact Except.noConfusion h
    · simp only [opVocab, List.mem_cons, List.not_mem_nil, or_false] at hop
      rcases hop with h' | h' | h' | h' | h'
      · exact k1 h'
      · exact k2 h'
      · exact k3 h'
      · exact k4 h'
      · exact k5 h'
  · intro h
    unfold operate
    simp only [jsCoerce, ha, hb]
    obtain ⟨h1, h2, h3, h4, h5⟩ :
        op ≠ ['+'] ∧ op ≠ ['-'] ∧ op ≠ ['x'] ∧ op ≠ ['÷'] ∧ op ≠ ['%'] := by
      simpa [opVocab] using h
    rw [if_neg h1, if_neg h2, if_neg h3, if_neg h4, if_neg h5]

/-- C1 witness. -/
theorem operate_mul_ascii_vocab_witness :
    operate (some ['2']) (some ['3']) ['x'] =
      .ok (stringifyCanon (times (parseCore ['2']) (parseCore ['3']))) ∧
    (operate (some ['2']) (some ['3']) ['÷'] = .error .unknownOperation ↔
      (['÷'] : Str) ∉ opVocab) :=
  operate_mul_ascii_vocab ['2'] ['3'] ['÷'] (parseCore ['2']) (parseCore ['3'])
    rfl rfl

/-- C2, counterexample: in the state `{total: "5", next: null,
operation: "+"}`, pressing the operator button `-` throws the
invalid-number error instead of merely overwriting the pending operator:
the pending-operation branch is checked first and evaluates
`operate("5", null, "+")`. -/
theorem calc_pending_op_cex :
    calculate id ⟨some ['5'], none, some ['+']⟩ ['-'] = .error .invalidNumber := by decide

/-- C2 (amended): in every state where `operation` is set, `next` is
absent and `total` is set, pressing an operator button fails with the
invalid-number error: the pending-operation branch applies first, and
Decimal construction of the absent `next` operand fails. -/
theorem calc_pending_op_no_next (neg : Str → Str) (t o b : Str)
    (ho : o ≠ []) (hb : isOperatorButton b) :
    calculate neg ⟨some t, none, some o⟩ b = .error .invalidNumber := by
  obtain ⟨h1, h2, h3, h4, h5⟩ := hb
  have h2' : ¬(isNumber b = true) := by simp [h2]
  unfold calculate
  rw [if_neg h1, if_neg h2', if_neg h3, if_neg h4, if_neg h5,
    if_pos (jsTruthy_some ho)]
  rw [operate_none_snd]

/-- C2 witness. -/
theorem calc_pending_op_no_next_witness :
    calculate id ⟨some ['5'], none, some ['+']⟩ ['x'] = .error .invalidNumber :=
  calc_pending_op_no_next id ['5'] ['+'] ['x'] (by decide) (by decide)

/-- C3: from the empty state, the presses `7`, `÷`, `0`, `=` make the
engine fail with the division-by-zero error raised by Decimal division;
no default state is returned (for every model `neg` of the sign-toggle
re-stringification, which these buttons never invoke). -/
theorem div_by_zero_propagates (neg : Str → Str) :
    pressAll neg emptyState [['7'], ['÷'], ['0'], ['=']] = .error .divByZero := rfl

/-- C4: from the empty state, the presses `9`, `+`, `1`, `+`, `2`, `=`
yield the final state `total = "12"`, `next` and `operation` absent: the
second `+` first evaluates `9 + 1` into `total = "10"`, then `=`
evaluates `10 + 2`. -/
theorem chain_nine_plus_one_plus_two (neg : Str → Str) :
    pressAll neg emptyState [['9'], ['+'], ['1'], ['+'], ['2'], ['=']] =
      .ok ⟨some ['1', '2'], none, none⟩ ∧
    pressAll neg emptyState [['9'], ['+'], ['1'], ['+']] =
      .ok ⟨some ['1', '0'], none, some ['+']⟩ := ⟨rfl, rfl⟩

/-- C9: pressing an operator button first (leaving only `operation` set),
then a digit button, then `=`, makes `calculate` fail with the
invalid-number error: `operate` receives the absent `total` as its first
operand, and Decimal construction of the coerced `"null"` string fails. -/
theorem op_first_digit_eq_invalid (neg : Str → Str) (op d : Str)
    (hop : isOperatorButton op) (hne : op ≠ []) (hd : isNumber d = true) :
    pressAll neg emptyState [op, d, ['=']] = .error .invalidNumber := by
  obtain ⟨h1, h2, h3, h4, h5⟩ := hop
  have h2' : ¬(isNumber op = true) := by simp [h2]
  have s1 : calculate neg emptyState op = .ok { operation := some (some op) } := by
    unfold calculate
    rw [if_neg h1, if_neg h2', if_neg h3, if_neg h4, if_neg h5]
    rfl
  have s2 : calculate neg ⟨none, none, some op⟩ d = .ok { next := some (some d) } := by
    have hzero : ¬(d = ['0'] ∧ (⟨none, none, some op⟩ : CalcState).next = some ['0']) := by
      rintro ⟨-, hx⟩
      exact Option.noConfusion hx
    unfold calculate
    by_cases hAC : d = ['A', 'C']
    · rw [hAC] at hd
      simp [isNumber, isDigitCh] at hd
    rw [if_neg hAC, if_pos hd, if_neg hzero, if_pos (jsTruthy_some hne)]
    rfl
  have s3 : calculate neg ⟨none, some d, some op⟩ ['='] = .error .invalidNumber := by
    have heq : ¬((['='] : Str) = ['A', 'C']) := by decide
    have hnum : ¬(isNumber ['='] = true) := by decide
    have hdot : ¬((['='] : Str) = ['.']) := by decide
    unfold calculate
    rw [if_neg heq, if_neg hnum, if_neg hdot, if_pos rfl,
      if_pos ⟨jsTruthy_some (isNumber_ne_nil hd), jsTruthy_some hne⟩]
    rw [operate_none_fst]
  have p1 : press neg emptyState op = .ok ⟨none, none, some op⟩ := by
    unfold press
    rw [s1]
    rfl
  have p2 : press neg ⟨none, none, some op⟩ d = .ok ⟨none, some d, some op⟩ := by
    unfold press
    rw [s2]
    rfl
  have p3 : press neg ⟨none, some d, some op⟩ ['='] = .error .invalidNumber := by
    unfold press
    rw [s3]
    rfl
  simp only [pressAll, p1, p2, p3]

/-- C9 witness. -/
theorem op_first_digit_eq_invalid_witness :
    pressAll id emptyState [['+'], ['3'], ['=']] = .error .invalidNumber :=
  op_first_digit_eq_invalid id ['+'] ['3'] (by decide) (by decide) (by decide)

/-! ### The `NUMERIC` pattern (claim C5) -/

/-- Characters of a `takeWhile` run satisfy the predicate. -/
theorem takeWhile_all_self (p : Char → Bool) (l : Str) : (l.takeWhile p).all p = true := by
  rw [List.all_eq_true]
  intro a ha
  exact List.mem_takeWhile_imp ha

/-- `takeWhile` passes through a fully satisfying prefix. -/
theorem takeWhile_app_all {p : Char → Bool} {l1 : Str} (l2 : Str) (h : l1.all p = true) :
    (l1 ++ l2).takeWhile p = l1 ++ l2.takeWhile p := by
  induction l1 with
  | nil => simp
  | cons a t ih =>
    rw [List.all_cons, Bool.and_eq_true] at h
    rw [List.cons_append, List.takeWhile_cons_of_pos h.1, ih h.2, List.cons_append]

/-- `dropWhile` drops a fully satisfying prefix. -/
theorem dropWhile_app_all {p : Char → Bool} {l1 : Str} (l2 : Str) (h : l1.all p = true) :
    (l1 ++ l2).dropWhile p = l2.dropWhile p := by
  induction l1 with
  | nil => simp
  | cons a t ih =>
    rw [List.all_cons, Bool.and_eq_true] at h
    rw [List.cons_append, List.dropWhile_cons_of_pos h.1, ih h.2]

/-- Projections of `takeDigits`. -/
theorem takeDigits_fst (l : Str) : (takeDigits l).1 = l.takeWhile isDigitCh := rfl

/-- Projections of `takeDigits`. -/
theorem takeDigits_snd (l : Str) : (takeDigits l).2 = l.dropWhile isDigitCh := rfl

/-- A non-`isEmpty` list is nonempty. -/
theorem ne_nil_of_not_isEmpty {l : Str} (h : ¬l.isEmpty = true) : l ≠ [] := by
  simpa [List.isEmpty_iff] using h

/-- A successful mantissa match splits the input into a mantissa of one of
the two regular-expression shapes and the unconsumed suffix. -/
theorem matchMantissa_sound {m rest : Str} (h : matchMantissa m = some rest) :
    ∃ mant, m = mant ++ rest ∧ mantSpec mant := by
  simp only [matchMantissa, takeDigits_fst, takeDigits_snd] at h
  by_cases h1 : m.head? = some '.'
  · rw [if_pos h1] at h
    by_cases h2 : (m.tail.takeWhile isDigitCh).isEmpty = true
    · rw [if_pos h2] at h
      exact Option.noConfusion h
    · rw [if_neg h2] at h
      injection h with h5
      have hm : m = '.' :: m.tail := by
        cases m with
        | nil => simp at h1
        | cons c cs =>
          rw [List.head?_cons, Option.some.injEq] at h1
          rw [h1]
          rfl
      refine ⟨'.' :: m.tail.takeWhile isDigitCh, ?_,
        .inr ⟨_, rfl, ne_nil_of_not_isEmpty h2, takeWhile_all_self _ _⟩⟩
      conv_lhs => rw [hm]
      rw [List.cons_append]
      congr 1
      rw [← h5, List.takeWhile_append_dropWhile]
  · rw [if_neg h1] at h
    by_cases h2 : (m.takeWhile isDigitCh).isEmpty = true
    · rw [if_pos h2] at h
      exact Option.noConfusion h
    · rw [if_neg h2] at h
      by_cases h3 : (m.dropWhile isDigitCh).head? = some '.'
      · rw [if_pos h3] at h
        injection h with h5
        have hr1 : m.dropWhile isDigitCh = '.' :: (m.dropWhile isDigitCh).tail := by
          cases hd : m.dropWhile isDigitCh with
          | nil => rw [hd] at h3; simp at h3
          | cons c cs =>
            rw [hd, List.head?_cons, Option.some.injEq] at h3
            rw [h3]
            rfl
        refine ⟨m.takeWhile isDigitCh ++
          ('.' :: (m.dropWhile isDigitCh).tail.takeWhile isDigitCh), ?_,
          .inl ⟨_, _, rfl, ne_nil_of_not_isEmpty h2, takeWhile_all_self _ _,
            .inr ⟨_, rfl, takeWhile_all_self _ _⟩⟩⟩
        rw [List.append_assoc, List.cons_append]
        conv_lhs => rw [← List.takeWhile_append_dropWhile isDigitCh m]
        congr 1
        conv_lhs => rw [hr1]
        congr 1
        rw [← h5, List.takeWhile_append_dropWhile]
      · rw [if_neg h3] at h
        injection h with h5
        refine ⟨m.takeWhile isDigitCh, ?_, .inl ⟨_, [], (List.append_nil _).symm,
          ne_nil_of_not_isEmpty h2, takeWhile_all_self _ _, .inl rfl⟩⟩
        rw [← h5, List.takeWhile_append_dropWhile]

/-- A digit character is not a sign or separator character. -/
theorem isDigitCh_ne {c : Char} (h : isDigitCh c = true) :
    c ≠ '+' ∧ c ≠ '-' ∧ c ≠ '.' ∧ c ≠ 'e' ∧ c ≠ 'E' := by
  refine ⟨?_, ?_, ?_, ?_, ?_⟩ <;> rintro rfl <;> simp [isDigitCh] at h

/-- A list whose `isEmpty` is false is nonempty. -/
theorem isEmpty_false_ne_nil {l : Str} (h : l.isEmpty = false) : l ≠ [] := by
  intro hx
  rw [hx] at h
  simp at h

/-- A successful exponent-suffix match has the exponent shape. -/
theorem matchExp_sound {r : Str} (h : matchExp r = true) : expSpec r := by
  cases r with
  | nil => exact .inl rfl
  | cons c cs =>
    simp only [matchExp, takeDigits_fst, takeDigits_snd, Bool.and_eq_true, Bool.or_eq_true,
      beq_iff_eq, Bool.not_eq_true'] at h
    obtain ⟨hc, hd, he⟩ := h
    rw [List.isEmpty_iff] at he
    by_cases hsign : cs.head? = some '+' ∨ cs.head? = some '-'
    · rw [if_pos hsign] at hd he
      obtain ⟨s, t, hcseq, hs⟩ : ∃ s t, cs = s :: t ∧ (s = '+' ∨ s = '-') := by
        cases cs with
        | nil => simp at hsign
        | cons s t =>
          rcases hsign with hs | hs <;> rw [List.head?_cons, Option.some.injEq] at hs
          · exact ⟨s, t, rfl, .inl hs⟩
          · exact ⟨s, t, rfl, .inr hs⟩
      subst hcseq
      simp only [List.tail_cons] at hd he
      have ht : t = t.takeWhile isDigitCh := by
        conv_lhs => rw [← List.takeWhile_append_dropWhile isDigitCh t]
        rw [he, List.append_nil]
      refine .inr ⟨c, [s], t.takeWhile isDigitCh, ?_, hc, ?_,
        isEmpty_false_ne_nil hd, takeWhile_all_self _ _⟩
      · rw [List.singleton_append, ← ht]
      · rcases hs with rfl | rfl
        · exact .inr (.inl rfl)
        · exact .inr (.inr rfl)
    · rw [if_neg hsign] at hd he
      have ht : cs = cs.takeWhile isDigitCh := by
        conv_lhs => rw [← List.takeWhile_append_dropWhile isDigitCh cs]
        rw [he, List.append_nil]
      refine .inr ⟨c, [], cs.takeWhile isDigitCh, ?_, hc, .inl rfl,
        isEmpty_false_ne_nil hd, takeWhile_all_self _ _⟩
      rw [List.nil_append, ← ht]

/-- An exponent-shaped suffix starts (if at all) with a letter: the digit
scan and the decimal-point/sign tests all see through it. -/
theorem expSpec_rest {rest : Str} (hr : expSpec rest) :
    rest.takeWhile isDigitCh = [] ∧ rest.dropWhile isDigitCh = rest ∧
      rest.head? ≠ some '.' ∧ rest.head? ≠ some '-' := by
  rcases hr with rfl | ⟨ec, es, ed, rfl, hec, -, -, -⟩
  · exact ⟨rfl, rfl, by simp, by simp⟩
  · have hnd : ¬isDigitCh ec = true := by
      rcases hec with rfl | rfl <;> decide
    refine ⟨List.takeWhile_cons_of_neg hnd, List.dropWhile_cons_of_neg hnd, ?_, ?_⟩
    · rw [List.head?_cons]
      intro hx
      injection hx with hx
      rcases hec with rfl | rfl <;> simp at hx
    · rw [List.head?_cons]
      intro hx
      injection hx with hx
      rcases hec with rfl | rfl <;> simp at hx

/-- The exponent-suffix matcher accepts every exponent-shaped string. -/
theorem matchExp_complete {expo : Str} (h : expSpec expo) : matchExp expo = true := by
  rcases h with rfl | ⟨ec, es, ed, rfl, hec, hes, hne, hall⟩
  · rfl
  · obtain ⟨d0, ds, rfl⟩ : ∃ d0 ds, ed = d0 :: ds := by
      cases ed with
      | nil => exact absurd rfl hne
      | cons a b => exact ⟨a, b, rfl⟩
    have hd0 : isDigitCh d0 = true := by
      rw [List.all_cons, Bool.and_eq_true] at hall
      exact hall.1
    have hEd : (d0 :: ds).takeWhile isDigitCh = d0 :: ds := by
      have h2 := @takeWhile_app_all isDigitCh (d0 :: ds) [] hall
      simpa using h2
    have hEd2 : (d0 :: ds).dropWhile isDigitCh = [] := by
      have h2 := @dropWhile_app_all isDigitCh (d0 :: ds) [] hall
      simpa using h2
    have hcpart : (ec == 'e' || ec == 'E') = true := by
      rcases hec with rfl | rfl <;> rfl
    have hns : ¬((d0 :: ds).head? = some '+' ∨ (d0 :: ds).head? = some '-') := by
      obtain ⟨hp, hm, -, -, -⟩ := isDigitCh_ne hd0
      rintro (hx | hx) <;> rw [List.head?_cons, Option.some.injEq] at hx
      · exact hp hx
      · exact hm hx
    rcases hes with rfl | rfl | rfl
    · simp only [List.nil_append, matchExp, takeDigits_fst, takeDigits_snd]
      rw [if_neg hns, hEd, hEd2, hcpart]
      rfl
    · simp only [List.singleton_append, matchExp, takeDigits_fst, takeDigits_snd]
      rw [if_pos (show ('+' :: d0 :: ds).head? = some '+' ∨
          ('+' :: d0 :: ds).head? = some '-' from Or.inl rfl),
        List.tail_cons, hEd, hEd2, hcpart]
      rfl
    · simp only [List.singleton_append, matchExp, takeDigits_fst, takeDigits_snd]
      rw [if_pos (show ('-' :: d0 :: ds).head? = some '+' ∨
          ('-' :: d0 :: ds).head? = some '-' from Or.inr rfl),
        List.tail_cons, hEd, hEd2, hcpart]
      rfl

/-- The mantissa matcher consumes exactly a mantissa-shaped prefix when an
exponent-shaped suffix follows. -/
theorem matchMantissa_complete {mant rest : Str} (hm : mantSpec mant) (hr : expSpec rest) :
    matchMantissa (mant ++ rest) = some rest := by
  obtain ⟨hrt, hrd, hrdot, -⟩ := expSpec_rest hr
  rcases hm with ⟨ip, fp, rfl, hipne, hipall, hfp⟩ | ⟨fd, rfl, hfdne, hfdall⟩
  · obtain ⟨i0, it, rfl⟩ : ∃ i0 it, ip = i0 :: it := by
      cases ip with
      | nil => exact absurd rfl hipne
      | cons a b => exact ⟨a, b, rfl⟩
    have hi0 : isDigitCh i0 = true := by
      rw [List.all_cons, Bool.and_eq_true] at hipall
      exact hipall.1
    have hhead : (((i0 :: it) ++ fp) ++ rest).head? ≠ some '.' := by
      rw [List.cons_append, List.cons_append, List.head?_cons]
      intro hx
      injection hx with hx
      exact (isDigitCh_ne hi0).2.2.1 hx
    simp only [matchMantissa, takeDigits_fst, takeDigits_snd]
    rw [if_neg hhead, List.append_assoc]
    rcases hfp with rfl | ⟨fd, rfl, hfdall⟩
    · rw [List.nil_append, takeWhile_app_all rest hipall, hrt, List.append_nil,
        dropWhile_app_all rest hipall, hrd]
      rw [if_neg (by intro hx; rw [List.isEmpty_iff] at hx; exact hipne hx),
        if_neg hrdot]
    · have ht1 : List.takeWhile isDigitCh (('.' :: fd) ++ rest) = [] := by
        rw [List.cons_append, List.takeWhile_cons_of_neg (by decide)]
      have hd1 : List.dropWhile isDigitCh (('.' :: fd) ++ rest) = '.' :: (fd ++ rest) := by
        rw [List.cons_append, List.dropWhile_cons_of_neg (by decide)]
      rw [takeWhile_app_all (('.' :: fd) ++ rest) hipall,
        dropWhile_app_all (('.' :: fd) ++ rest) hipall, ht1, hd1, List.append_nil]
      rw [if_neg (fun hx => hipne (List.isEmpty_iff.mp hx)),
        if_pos (show ('.' :: (fd ++ rest)).head? = some '.' by rfl), List.tail_cons,
        dropWhile_app_all rest hfdall, hrd]
  · simp only [matchMantissa, takeDigits_fst, takeDigits_snd]
    rw [List.cons_append,
      if_pos (show ('.' :: (fd ++ rest)).head? = some '.' by rfl), List.tail_cons,
      takeWhile_app_all rest hfdall, hrt, List.append_nil,
      dropWhile_app_all rest hfdall, hrd]
    rw [if_neg (fun hx => hfdne (List.isEmpty_iff.mp hx))]

/-- A mantissa-shaped string is nonempty and does not start with `-`. -/
theorem mantSpec_head {mant : Str} (hm : mantSpec mant) :
    mant ≠ [] ∧ mant.head? ≠ some '-' := by
  rcases hm with ⟨ip, fp, rfl, hipne, hipall, -⟩ | ⟨fd, rfl, -, -⟩
  · obtain ⟨i0, it, rfl⟩ : ∃ i0 it, ip = i0 :: it := by
      cases ip with
      | nil => exact absurd rfl hipne
      | cons a b => exact ⟨a, b, rfl⟩
    have hi0 : isDigitCh i0 = true := by
      rw [List.all_cons, Bool.and_eq_true] at hipall
      exact hipall.1
    refine ⟨by simp, ?_⟩
    rw [List.cons_append, List.head?_cons]
    intro hx
    injection hx with hx
    exact (isDigitCh_ne hi0).2.1 hx
  · exact ⟨by simp, by rw [List.head?_cons]; intro hx; injection hx with hx; exact absurd hx (by decide)⟩

/-- The `NUMERIC` matcher is sound for the declarative pattern. -/
theorem numericTest_sound {l : Str} (h : numericTest l = true) : numericSpec l := by
  unfold numericTest at h
  by_cases hneg : l.head? = some '-'
  · rw [if_pos hneg] at h
    cases hmm : matchMantissa l.tail with
    | none => rw [hmm] at h; exact absurd h (by simp)
    | some rest =>
      rw [hmm] at h
      obtain ⟨mant, hsplit, hspec⟩ := matchMantissa_sound hmm
      have hl : l = '-' :: l.tail := by
        cases l with
        | nil => simp at hneg
        | cons c cs =>
          rw [List.head?_cons, Option.some.injEq] at hneg
          rw [hneg]
          rfl
      refine ⟨['-'], mant, rest, ?_, .inr rfl, hspec, matchExp_sound h⟩
      rw [List.singleton_append]
      conv_lhs => rw [hl, hsplit]
      rw [List.cons_append]
  · rw [if_neg hneg] at h
    cases hmm : matchMantissa l with
    | none => rw [hmm] at h; exact absurd h (by simp)
    | some rest =>
      rw [hmm] at h
      obtain ⟨mant, hsplit, hspec⟩ := matchMantissa_sound hmm
      exact ⟨[], mant, rest, by rw [List.nil_append, hsplit], .inl rfl, hspec, matchExp_sound h⟩

/-- The `NUMERIC` matcher is complete for the declarative pattern. -/
theorem numericTest_complete {l : Str} (h : numericSpec l) : numericTest l = true := by
  obtain ⟨sgn, mant, expo, rfl, hsgn, hm, he⟩ := h
  unfold numericTest
  rcases hsgn with rfl | rfl
  · rw [List.nil_append]
    have hnm : (mant ++ expo).head? ≠ some '-' := by
      obtain ⟨hne, hh⟩ := mantSpec_head hm
      obtain ⟨m0, mt, rfl⟩ : ∃ m0 mt, mant = m0 :: mt := by
        cases mant with
        | nil => exact absurd rfl hne
        | cons a b => exact ⟨a, b, rfl⟩
      rw [List.cons_append, List.head?_cons]
      rw [List.head?_cons] at hh
      exact hh
    rw [if_neg hnm, matchMantissa_complete hm he]
    exact matchExp_complete he
  · simp only [List.cons_append, List.nil_append]
    rw [if_pos (show ('-' :: (mant ++ expo)).head? = some '-' by rfl), List.tail_cons,
      matchMantissa_complete hm he]
    exact matchExp_complete he

/-- C5, counterexample: the string `.5` (a bare fraction with no integer
digits) does not match the pattern stated by the specification, yet
Decimal construction succeeds on it: the source's `NUMERIC` regular
expression has the additional alternative `\.\d+`. -/
theorem parse_dot_five_cex :
    parse ['.', '5'] = .ok ⟨1, -1, [5]⟩ ∧ ¬specPattern ['.', '5'] := by
  refine ⟨rfl, ?_⟩
  rintro ⟨sgn, ip, fr, ex, heq, hsgn, ⟨hne, hdig⟩, -, -⟩
  obtain ⟨c, cs, rfl⟩ : ∃ c cs, ip = c :: cs := by
    cases ip with
    | nil => exact absurd rfl hne
    | cons a b => exact ⟨a, b, rfl⟩
  rw [List.all_cons, Bool.and_eq_true] at hdig
  rcases hsgn with rfl | rfl
  · have h2 := congrArg List.head? heq
    simp only [List.head?_cons, List.nil_append, List.cons_append,
      Option.some.injEq] at h2
    exact absurd hdig.1 (by rw [← h2]; decide)
  · have h2 := congrArg List.head? heq
    simp only [List.head?_cons, List.nil_append, List.cons_append,
      Option.some.injEq] at h2
    exact absurd h2 (by decide)

/-- C5 (amended): Decimal construction from a string succeeds for exactly
the strings matching `[-](digits[.digits*] | .digits)[e|E[+|-]digits]` —
the source's `NUMERIC` pattern, whose mantissa may also be a bare
fraction `.digits` and whose fractional digits may be empty — and fails
with an invalid-number error, yielding no Decimal value, on every other
string. -/
theorem parse_ok_iff_numericSpec (s : Str) :
    ((∃ x, parse s = .ok x) ↔ numericSpec s) ∧
      (¬numericSpec s → parse s = .error .invalidNumber) := by
  have hiff : numericTest s = true ↔ numericSpec s :=
    ⟨numericTest_sound, numericTest_complete⟩
  constructor
  · constructor
    · rintro ⟨x, hx⟩
      unfold parse at hx
      by_cases ht : numericTest s = true
      · exact hiff.mp ht
      · rw [if_neg ht] at hx
        exact Except.noConfusion hx
    · intro h
      unfold parse
      rw [if_pos (hiff.mpr h)]
      exact ⟨_, rfl⟩
  · intro h
    unfold parse
    rw [if_neg (fun ht => h (hiff.mp ht))]

/-! ### String round-trip (claim C6) -/

/-- Facts about the rendering of a single decimal digit. -/
theorem digitChar_facts {d : Nat} (h : d < 10) :
    isDigitCh (Nat.digitChar d) = true ∧ digitVal (Nat.digitChar d) = d ∧
      (Nat.digitChar d == '.') = false ∧
      ((Nat.digitChar d == 'e') || (Nat.digitChar d == 'E')) = false ∧
      Nat.digitChar d ≠ '-' ∧ Nat.digitChar d ≠ '.' := by
  interval_cases d <;> exact ⟨rfl, rfl, rfl, rfl, by decide, by decide⟩

/-- A nonzero digit does not render as the character zero. -/
theorem digitChar_ne_zero {d : Nat} (h : d < 10) (h0 : d ≠ 0) :
    (Nat.digitChar d == '0') = false := by
  interval_cases d
  · exact absurd rfl h0
  all_goals rfl

/-- `scanIdx` misses a list none of whose characters satisfy it. -/
theorem scanIdx_none {p : Char → Bool} {A : Str} (h : ∀ c ∈ A, p c = false) :
    scanIdx p A = none := by
  induction A with
  | nil => rfl
  | cons a t ih =>
    have ha : p a = false := h a (List.mem_cons_self a t)
    simp only [scanIdx, ha, Bool.false_eq_true, if_false,
      ih (fun c hc => h c (List.mem_cons_of_mem a hc)), Option.map_none']

/-- `scanIdx` finds the first hit after a miss-only prefix. -/
theorem scanIdx_app_here {p : Char → Bool} {A : Str} (h : ∀ c ∈ A, p c = false)
    {b : Char} (hb : p b = true) (B : Str) :
    scanIdx p (A ++ b :: B) = some A.length := by
  induction A with
  | nil => simp [scanIdx, hb]
  | cons a t ih =>
    have ha : p a = false := h a (List.mem_cons_self a t)
    simp only [List.cons_append, scanIdx, ha, Bool.false_eq_true, if_false, List.append_eq,
      ih (fun c hc => h c (List.mem_cons_of_mem a hc)), Option.map_some', List.length_cons]

/-- The leading-zero scan stops immediately on a list not starting with
the character zero. -/
theorem takeWhile_zero_nil {D : Str} (h : D.head? ≠ some '0') :
    D.takeWhile (· == '0') = [] := by
  cases D with
  | nil => rfl
  | cons a t =>
    refine List.takeWhile_cons_of_neg ?_
    intro hx
    rw [beq_iff_eq] at hx
    rw [List.head?_cons, hx] at h
    exact h rfl

/-- The trailing-zero strip removes appended zeros and nothing else. -/
theorem revDropRev_zeros {A : Str} (h : A.getLast? ≠ some '0') (k : Nat) :
    (((A ++ List.replicate k '0').reverse).dropWhile (· == '0')).reverse = A := by
  rw [List.reverse_append, List.reverse_replicate,
    dropWhile_app_all _ (by simp [List.all_eq_true, List.mem_replicate])]
  cases hA : A.reverse with
  | nil =>
    have : A = [] := by simpa using congrArg List.reverse hA
    simp [this]
  | cons a t =>
    have ha : a ≠ '0' := by
      intro hx
      have h2 := List.head?_reverse A
      rw [hA, List.head?_cons, hx] at h2
      exact h (h2.symm)
    rw [List.dropWhile_cons_of_neg (by simpa using ha), ← hA, List.reverse_reverse]

/-- The trailing-zero strip leaves a list not ending in zero unchanged. -/
theorem revDropRev_eq {A : Str} (h : A.getLast? ≠ some '0') :
    ((A.reverse).dropWhile (· == '0')).reverse = A := by
  have h2 := revDropRev_zeros h 0
  simpa using h2

/-- The value of a digit run rendered most-significant-first. -/
theorem natOfDigits_rev_map (ds : List Nat) (h : ∀ d ∈ ds, d < 10) :
    natOfDigits ((ds.reverse).map Nat.digitChar) = Nat.ofDigits 10 ds := by
  induction ds with
  | nil => rfl
  | cons d t ih =>
    rw [List.reverse_cons, List.map_append, List.map_cons, List.map_nil]
    have step : ∀ A : Str, natOfDigits (A ++ [Nat.digitChar d]) =
        10 * natOfDigits A + digitVal (Nat.digitChar d) := by
      intro A
      unfold natOfDigits
      rw [List.foldl_append]
      rfl
    rw [step, ih (fun a ha => h a (List.mem_cons_of_mem d ha)),
      (digitChar_facts (h d (List.mem_cons_self d t))).2.1, Nat.ofDigits_cons]
    ring

/-- Parsing back the decimal rendering of a natural number. -/
theorem natOfDigits_natStr (n : Nat) : natOfDigits (natStr n) = n := by
  unfold natStr
  split
  · rename_i h
    rw [h]
    rfl
  · rw [natOfDigits_rev_map _ (fun d hd => Nat.digits_lt_base (by norm_num) hd),
      Nat.ofDigits_digits]

/-- All characters of a rendered natural number are digits. -/
theorem natStr_all_digits (n : Nat) : ∀ ch ∈ natStr n, isDigitCh ch = true := by
  intro ch hch
  unfold natStr at hch
  split at hch
  · rw [List.mem_singleton] at hch
    rw [hch]
    rfl
  · rw [List.mem_map] at hch
    obtain ⟨d, hd, rfl⟩ := hch
    rw [List.mem_reverse] at hd
    exact (digitChar_facts (Nat.digits_lt_base (by norm_num) hd)).1

/-- A rendered natural number is a nonempty string. -/
theorem natStr_ne_nil (n : Nat) : natStr n ≠ [] := by
  unfold natStr
  split
  · simp
  · rename_i h
    simp only [ne_eq, List.map_eq_nil_iff, List.reverse_eq_nil_iff]
    exact Nat.digits_ne_nil_iff_ne_zero.mpr h

/-- A character comparing `false` against `b` everywhere keeps `b` out. -/
theorem not_mem_of_beq_false {b : Char} {A : Str} (h : ∀ ch ∈ A, (ch == b) = false) :
    b ∉ A := by
  intro hmem
  have h2 := h b hmem
  simp at h2

/-- A digit character is not a decimal point. -/
theorem isDigit_not_dot {ch : Char} (h : isDigitCh ch = true) : (ch == '.') = false :=
  beq_eq_false_iff_ne.mpr (isDigitCh_ne h).2.2.1

/-- A digit character is not an exponent letter. -/
theorem isDigit_not_e {ch : Char} (h : isDigitCh ch = true) :
    (ch == 'e' || ch == 'E') = false := by
  obtain ⟨-, -, -, he, hE⟩ := isDigitCh_ne h
  rw [beq_eq_false_iff_ne.mpr he, beq_eq_false_iff_ne.mpr hE]
  rfl

section ParseMagBranches

variable {c : List Nat}

/-- The digit-rendering facts shared by the round-trip branch lemmas. -/
theorem digitsStr_facts (hd10 : ∀ d ∈ c, d < 10) (hh : c.head? ≠ some 0)
    (hl : c.getLast? ≠ some 0) :
    (∀ ch ∈ c.map Nat.digitChar, isDigitCh ch = true) ∧
      (c.map Nat.digitChar).head? ≠ some '0' ∧
      (c.map Nat.digitChar).getLast? ≠ some '0' ∧
      (c.map Nat.digitChar).map digitVal = c := by
  refine ⟨?_, ?_, ?_, ?_⟩
  · intro ch hch
    obtain ⟨d, hd, rfl⟩ := List.mem_map.mp hch
    exact (digitChar_facts (hd10 d hd)).1
  · cases c with
    | nil => simp
    | cons d0 t =>
      rw [List.map_cons, List.head?_cons]
      intro hx
      injection hx with hx
      have hd0 : d0 ≠ 0 := by
        intro h0
        rw [List.head?_cons, h0] at hh
        exact hh rfl
      have h2 := digitChar_ne_zero (hd10 d0 (List.mem_cons_self d0 t)) hd0
      rw [hx] at h2
      simp at h2
  · rw [List.getLast?_map]
    intro hx
    rw [Option.map_eq_some'] at hx
    obtain ⟨d, hd, hdc⟩ := hx
    have hdlt : d < 10 := hd10 d (List.mem_of_mem_getLast? hd)
    have hdne : d ≠ 0 := by
      intro h0
      rw [h0] at hd
      exact hl hd
    have h2 := digitChar_ne_zero hdlt hdne
    rw [hdc] at h2
    simp at h2
  · rw [List.map_map]
    have h2 : ∀ d ∈ c, (digitVal ∘ Nat.digitChar) d = id d := by
      intro d hd
      exact (digitChar_facts (hd10 d hd)).2.1
    rw [List.map_congr_left h2, List.map_id]

/-- `expAdjust` with no decimal point and no exponent letter. -/
theorem expAdjust_nodot_noe (l2 : Str) :
    expAdjust none l2 none = ((l2.length : Int), l2) := rfl

/-- `expAdjust` with a decimal point but no exponent letter. -/
theorem expAdjust_dot_noe (d2 : Nat) (l2 : Str) :
    expAdjust (some d2) l2 none = ((d2 : Int), l2) := rfl

/-- `expAdjust` with an exponent letter at a positive index. -/
theorem expAdjust_e (dot : Option Nat) (l2 : Str) {i : Nat} (hi : 0 < i) :
    expAdjust dot l2 (some i) =
      ((match dot with
        | some d2 => (d2 : Int)
        | none => (i : Int)) + intOfExpStr (l2.drop (i + 1)), l2.take i) := by
  simp only [expAdjust]
  rw [if_pos hi]

/-- The zero-stripping tail on a clean digit run with `k` trailing
zeros. -/
theorem stripZeros_digits_zeros (e1 : Int) (hne : c ≠ []) (hd10 : ∀ d ∈ c, d < 10)
    (hh : c.head? ≠ some 0) (hl : c.getLast? ≠ some 0) (k : Nat) :
    stripZeros (e1, c.map Nat.digitChar ++ List.replicate k '0') = (e1 - 1, c) := by
  obtain ⟨hdig, hhead, hlast, hval⟩ := digitsStr_facts hd10 hh hl
  have hheadS : (c.map Nat.digitChar ++ List.replicate k '0').head? ≠ some '0' := by
    cases hc : c.map Nat.digitChar with
    | nil => exact absurd (List.map_eq_nil_iff.mp hc) hne
    | cons a t =>
      rw [List.cons_append, List.head?_cons]
      rw [hc, List.head?_cons] at hhead
      exact hhead
  have hlen : ¬(List.length ([] : Str) =
      (c.map Nat.digitChar ++ List.replicate k '0').length) := by
    rw [List.length_append, List.length_map, List.length_nil]
    have h2 := List.length_pos.mpr hne
    omega
  unfold stripZeros
  rw [takeWhile_zero_nil hheadS, if_neg hlen]
  simp only [List.length_nil, List.drop_zero, Nat.cast_zero, sub_zero]
  rw [revDropRev_zeros hlast k, hval]

/-- The zero-stripping tail on a leading-zero block followed by a clean
digit run. -/
theorem stripZeros_zero_block (e1 : Int) (hne : c ≠ []) (hd10 : ∀ d ∈ c, d < 10)
    (hh : c.head? ≠ some 0) (hl : c.getLast? ≠ some 0) (k : Nat) :
    stripZeros (e1, ('0' :: List.replicate k '0') ++ c.map Nat.digitChar) =
      (e1 - ((k + 1 : Nat) : Int) - 1, c) := by
  obtain ⟨hdig, hhead, hlast, hval⟩ := digitsStr_facts hd10 hh hl
  have hz : ('0' :: List.replicate k '0').all (· == '0') = true := by
    simp [List.all_eq_true, List.mem_replicate]
  have htw : (('0' :: List.replicate k '0') ++ c.map Nat.digitChar).takeWhile (· == '0') =
      '0' :: List.replicate k '0' := by
    rw [takeWhile_app_all _ hz, takeWhile_zero_nil hhead, List.append_nil]
  have hlen2 : ('0' :: List.replicate k '0').length = k + 1 := by
    rw [List.length_cons, List.length_replicate]
  have hcond : ¬(('0' :: List.replicate k '0').length =
      (('0' :: List.replicate k '0') ++ c.map Nat.digitChar).length) := by
    rw [List.length_append, List.length_map]
    have h2 := List.length_pos.mpr hne
    omega
  unfold stripZeros
  rw [htw, if_neg hcond, hlen2]
  rw [show (('0' :: List.replicate k '0') ++ c.map Nat.digitChar).drop (k + 1) =
      c.map Nat.digitChar by
    rw [← hlen2, List.drop_left]]
  rw [revDropRev_eq hlast, hval]

/-- The zero-stripping tail on a clean digit run. -/
theorem stripZeros_digits (e1 : Int) (hne : c ≠ []) (hd10 : ∀ d ∈ c, d < 10)
    (hh : c.head? ≠ some 0) (hl : c.getLast? ≠ some 0) :
    stripZeros (e1, c.map Nat.digitChar) = (e1 - 1, c) := by
  have h2 := stripZeros_digits_zeros e1 hne hd10 hh hl 0
  simpa using h2

/-- Parsing the magnitude of a digit run with `k` appended zeros (integer
rendering, covering also `k = 0`). -/
theorem parseMag_digits_zeros (hne : c ≠ []) (hd10 : ∀ d ∈ c, d < 10)
    (hh : c.head? ≠ some 0) (hl : c.getLast? ≠ some 0) (k : Nat) :
    parseMag (c.map Nat.digitChar ++ List.replicate k '0') =
      (((c.length + k : Nat) : Int) - 1, c) := by
  obtain ⟨hdig, hhead, hlast, hval⟩ := digitsStr_facts hd10 hh hl
  have hSdot : ∀ ch ∈ c.map Nat.digitChar ++ List.replicate k '0', (ch == '.') = false := by
    intro ch hch
    rcases List.mem_append.mp hch with hch | hch
    · exact isDigit_not_dot (hdig ch hch)
    · rw [List.mem_replicate] at hch
      rw [hch.2]
      rfl
  have hSe : ∀ ch ∈ c.map Nat.digitChar ++ List.replicate k '0',
      (ch == 'e' || ch == 'E') = false := by
    intro ch hch
    rcases List.mem_append.mp hch with hch | hch
    · exact isDigit_not_e (hdig ch hch)
    · rw [List.mem_replicate] at hch
      rw [hch.2]
      rfl
  unfold parseMag
  rw [scanIdx_none hSdot, List.erase_of_not_mem (not_mem_of_beq_false hSdot),
    scanIdx_none hSe, expAdjust_nodot_noe,
    stripZeros_digits_zeros _ hne hd10 hh hl k,
    List.length_append, List.length_map, List.length_replicate]

/-- Parsing the magnitude of a bare digit run. -/
theorem parseMag_digits (hne : c ≠ []) (hd10 : ∀ d ∈ c, d < 10)
    (hh : c.head? ≠ some 0) (hl : c.getLast? ≠ some 0) :
    parseMag (c.map Nat.digitChar) = ((c.length : Int) - 1, c) := by
  have h2 := parseMag_digits_zeros hne hd10 hh hl 0
  simpa using h2

/-- Dropping past an element appended after a prefix. -/
theorem drop_app_succ (A : Str) (b : Char) (B : Str) :
    (A ++ b :: B).drop (A.length + 1) = B := by
  rw [show A ++ b :: B = (A ++ [b]) ++ B by simp,
    show A.length + 1 = (A ++ [b]).length by simp, List.drop_left]

/-- Parsing the magnitude of a digit run with an interior decimal point. -/
theorem parseMag_dot_inside (hne : c ≠ []) (hd10 : ∀ d ∈ c, d < 10)
    (hh : c.head? ≠ some 0) (hl : c.getLast? ≠ some 0) {t : Nat}
    (ht2 : t < c.length) :
    parseMag ((c.map Nat.digitChar).take t ++ '.' :: (c.map Nat.digitChar).drop t) =
      ((t : Int) - 1, c) := by
  obtain ⟨hdig, hhead, hlast, hval⟩ := digitsStr_facts hd10 hh hl
  have htake : ∀ ch ∈ (c.map Nat.digitChar).take t, (ch == '.') = false :=
    fun ch hch => isDigit_not_dot (hdig ch (List.take_subset t _ hch))
  have hlen : ((c.map Nat.digitChar).take t).length = t := by
    rw [List.length_take, List.length_map]
    omega
  have hjoin : (c.map Nat.digitChar).take t ++ (c.map Nat.digitChar).drop t =
      c.map Nat.digitChar := List.take_append_drop t _
  unfold parseMag
  rw [scanIdx_app_here htake (by rfl) _, hlen,
    List.erase_append_right _ (not_mem_of_beq_false htake), List.erase_cons_head,
    hjoin, scanIdx_none (fun ch hch => isDigit_not_e (hdig ch hch)),
    expAdjust_dot_noe, stripZeros_digits _ hne hd10 hh hl]

/-- Parsing the magnitude of the small-negative-exponent rendering
`0.0…0digits`. -/
theorem parseMag_zero_dot (hne : c ≠ []) (hd10 : ∀ d ∈ c, d < 10)
    (hh : c.head? ≠ some 0) (hl : c.getLast? ≠ some 0) (k : Nat) :
    parseMag ('0' :: '.' :: (List.replicate k '0' ++ c.map Nat.digitChar)) =
      (-(k : Int) - 1, c) := by
  obtain ⟨hdig, hhead, hlast, hval⟩ := digitsStr_facts hd10 hh hl
  have hsh : '0' :: '.' :: (List.replicate k '0' ++ c.map Nat.digitChar) =
      ['0'] ++ '.' :: (List.replicate k '0' ++ c.map Nat.digitChar) := rfl
  have h0dot : ∀ ch ∈ (['0'] : Str), (ch == '.') = false := by
    intro ch hch
    rw [List.mem_singleton] at hch
    rw [hch]
    rfl
  have hSe : ∀ ch ∈ '0' :: (List.replicate k '0' ++ c.map Nat.digitChar),
      (ch == 'e' || ch == 'E') = false := by
    intro ch hch
    rcases List.mem_cons.mp hch with rfl | hch
    · rfl
    rcases List.mem_append.mp hch with hch | hch
    · rw [List.mem_replicate] at hch
      rw [hch.2]
      rfl
    · exact isDigit_not_e (hdig ch hch)
  unfold parseMag
  rw [hsh, scanIdx_app_here h0dot (by rfl) _,
    List.erase_append_right _ (not_mem_of_beq_false h0dot), List.erase_cons_head]
  rw [show (['0'] : Str) ++ (List.replicate k '0' ++ c.map Nat.digitChar) =
    '0' :: (List.replicate k '0' ++ c.map Nat.digitChar) from rfl]
  rw [scanIdx_none hSe, expAdjust_dot_noe]
  rw [show ('0' :: (List.replicate k '0' ++ c.map Nat.digitChar) : Str) =
    ('0' :: List.replicate k '0') ++ c.map Nat.digitChar from rfl]
  rw [stripZeros_zero_block _ hne hd10 hh hl k, Prod.mk.injEq]
  refine ⟨?_, rfl⟩
  simp only [List.length_singleton]
  push_cast
  ring

/-- Parsing the magnitude of the exponential rendering
`d[.digits]e⟨suffix⟩`. -/
theorem parseMag_exp (hne : c ≠ []) (hd10 : ∀ d ∈ c, d < 10)
    (hh : c.head? ≠ some 0) (hl : c.getLast? ≠ some 0) (R : Str)
    (hRdot : ∀ ch ∈ R, (ch == '.') = false) :
    parseMag ((c.map Nat.digitChar).take 1 ++
        (if (c.map Nat.digitChar).length > 1 then '.' :: (c.map Nat.digitChar).drop 1
         else []) ++ ('e' :: R)) = (intOfExpStr R, c) := by
  obtain ⟨hdig, hhead, hlast, hval⟩ := digitsStr_facts hd10 hh hl
  have hDne : c.map Nat.digitChar ≠ [] := by
    intro hx
    exact hne (List.map_eq_nil_iff.mp hx)
  have hDe : ∀ ch ∈ c.map Nat.digitChar, ((ch == 'e') || (ch == 'E')) = false :=
    fun ch hch => isDigit_not_e (hdig ch hch)
  have hnpos : 0 < (c.map Nat.digitChar).length := List.length_pos.mpr hDne
  unfold parseMag
  by_cases hn : (c.map Nat.digitChar).length > 1
  · rw [if_pos hn]
    obtain ⟨dch, Dr, hD⟩ : ∃ dch Dr, c.map Nat.digitChar = dch :: Dr := by
      cases hc : c.map Nat.digitChar with
      | nil => exact absurd hc hDne
      | cons a t => exact ⟨a, t, rfl⟩
    have htake1 : (c.map Nat.digitChar).take 1 = [dch] := by
      rw [hD]
      rfl
    have hdrop1 : (c.map Nat.digitChar).drop 1 = Dr := by
      rw [hD]
      rfl
    have hdotA : ∀ ch ∈ ([dch] : Str), (ch == '.') = false := by
      intro ch hch
      rw [List.mem_singleton] at hch
      subst hch
      refine isDigit_not_dot (hdig ch ?_)
      rw [hD]
      exact List.mem_cons_self _ _
    have hshape : ([dch] : Str) ++ '.' :: (c.map Nat.digitChar).drop 1 ++ 'e' :: R =
        [dch] ++ '.' :: (Dr ++ 'e' :: R) := by
      rw [hdrop1, List.append_assoc]
      rfl
    rw [htake1, hshape, scanIdx_app_here hdotA (by rfl) _,
      List.erase_append_right _ (not_mem_of_beq_false hdotA), List.erase_cons_head]
    rw [show ([dch] : Str) ++ (Dr ++ 'e' :: R) = (dch :: Dr) ++ 'e' :: R from rfl, ← hD]
    rw [scanIdx_app_here hDe (by rfl) _, expAdjust_e _ _ hnpos,
      drop_app_succ, List.take_left]
    rw [stripZeros_digits _ hne hd10 hh hl, Prod.mk.injEq]
    refine ⟨?_, rfl⟩
    show (↑([dch] : Str).length + intOfExpStr R - 1 : Int) = intOfExpStr R
    simp only [List.length_singleton]
    push_cast
    ring
  · rw [if_neg hn]
    have hn1 : (c.map Nat.digitChar).length = 1 := by omega
    have htake1 : (c.map Nat.digitChar).take 1 = c.map Nat.digitChar := by
      rw [List.take_of_length_le]
      omega
    have hSdot : ∀ ch ∈ c.map Nat.digitChar ++ 'e' :: R, (ch == '.') = false := by
      intro ch hch
      rcases List.mem_append.mp hch with hch | hch
      · exact isDigit_not_dot (hdig ch hch)
      rcases List.mem_cons.mp hch with rfl | hch
      · rfl
      · exact hRdot ch hch
    rw [htake1, List.append_nil, scanIdx_none hSdot,
      List.erase_of_not_mem (not_mem_of_beq_false hSdot),
      scanIdx_app_here hDe (by rfl) _, expAdjust_e _ _ hnpos,
      drop_app_succ, List.take_left]
    rw [stripZeros_digits _ hne hd10 hh hl, Prod.mk.injEq]
    refine ⟨?_, rfl⟩
    show (↑(c.map Nat.digitChar).length + intOfExpStr R - 1 : Int) = intOfExpStr R
    rw [hn1]
    push_cast
    ring

/-- A nonempty all-digit run is a `NUMERIC` mantissa. -/
theorem mantSpec_digit_run {m : Str} (hne : m ≠ []) (hall : ∀ ch ∈ m, isDigitCh ch = true) :
    mantSpec m :=
  Or.inl ⟨m, [], (List.append_nil m).symm, hne,
    by rw [List.all_eq_true]; exact hall, Or.inl rfl⟩

/-- Integer digits, a decimal point, then fractional digits form a
`NUMERIC` mantissa. -/
theorem mantSpec_dot_run {ip fd : Str} (hne : ip ≠ []) (hip : ∀ ch ∈ ip, isDigitCh ch = true)
    (hfd : ∀ ch ∈ fd, isDigitCh ch = true) :
    mantSpec (ip ++ '.' :: fd) :=
  Or.inl ⟨ip, '.' :: fd, rfl, hne, by rw [List.all_eq_true]; exact hip,
    Or.inr ⟨fd, rfl, by rw [List.all_eq_true]; exact hfd⟩⟩

/-- An exponent letter, an explicit sign, and an integer rendering form a
`NUMERIC` exponent suffix. -/
theorem expSpec_e_sign (sg : Str) (hs : sg = [] ∨ sg = ['+'] ∨ sg = ['-']) (m : Nat) :
    expSpec ('e' :: (sg ++ natStr m)) :=
  Or.inr ⟨'e', sg, natStr m, rfl, Or.inl rfl, hs, natStr_ne_nil m,
    by rw [List.all_eq_true]; exact natStr_all_digits m⟩

/-- A string starting with a mantissa does not start with a minus. -/
theorem mant_app_head {m expo : Str} (hm : mantSpec m) :
    (m ++ expo).head? ≠ some '-' := by
  obtain ⟨hne, hh⟩ := mantSpec_head hm
  cases m with
  | nil => exact absurd rfl hne
  | cons a t =>
    rw [List.cons_append, List.head?_cons]
    rw [List.head?_cons] at hh
    exact hh

/-- The canonical body parses back to the original exponent and digit
run, across all five rendering shapes. -/
theorem canonBody_parseMag (e : Int) (hne : c ≠ []) (hd10 : ∀ d ∈ c, d < 10)
    (hh : c.head? ≠ some 0) (hl : c.getLast? ≠ some 0) :
    parseMag (canonBody e (c.map Nat.digitChar)) = (e, c) := by
  have hclen : (c.map Nat.digitChar).length = c.length := by simp
  unfold canonBody
  by_cases hw : e ≤ -7 ∨ e ≥ 21
  · rw [if_pos hw]
    by_cases hneg : e < 0
    · rw [if_pos hneg]
      have hR : intStr e = '-' :: natStr e.natAbs := by
        unfold intStr
        rw [if_pos hneg]
      have hdots : ∀ ch ∈ '-' :: natStr e.natAbs, (ch == '.') = false := by
        intro ch hch
        rcases List.mem_cons.mp hch with rfl | hch
        · rfl
        · exact isDigit_not_dot (natStr_all_digits _ ch hch)
      rw [hR, parseMag_exp hne hd10 hh hl _ hdots, Prod.mk.injEq]
      refine ⟨?_, rfl⟩
      show -(natOfDigits (natStr e.natAbs) : Int) = e
      rw [natOfDigits_natStr]
      omega
    · rw [if_neg hneg]
      have hdots : ∀ ch ∈ '+' :: natStr e.natAbs, (ch == '.') = false := by
        intro ch hch
        rcases List.mem_cons.mp hch with rfl | hch
        · rfl
        · exact isDigit_not_dot (natStr_all_digits _ ch hch)
      rw [parseMag_exp hne hd10 hh hl _ hdots, Prod.mk.injEq]
      refine ⟨?_, rfl⟩
      show (natOfDigits (natStr e.natAbs) : Int) = e
      rw [natOfDigits_natStr]
      omega
  · rw [if_neg hw]
    by_cases hneg : e < 0
    · rw [if_pos hneg, parseMag_zero_dot hne hd10 hh hl _, Prod.mk.injEq]
      refine ⟨?_, rfl⟩
      omega
    · rw [if_neg hneg]
      by_cases hp : e > 0
      · rw [if_pos hp]
        by_cases h1 : e + 1 > ((c.map Nat.digitChar).length : Int)
        · rw [if_pos h1, parseMag_digits_zeros hne hd10 hh hl _, Prod.mk.injEq]
          refine ⟨?_, rfl⟩
          rw [hclen] at h1
          omega
        · rw [if_neg h1]
          by_cases h2 : e + 1 < ((c.map Nat.digitChar).length : Int)
          · rw [if_pos h2]
            have ht2 : (e + 1).toNat < c.length := by
              rw [hclen] at h2
              omega
            rw [parseMag_dot_inside hne hd10 hh hl ht2, Prod.mk.injEq]
            refine ⟨?_, rfl⟩
            omega
          · rw [if_neg h2, parseMag_digits hne hd10 hh hl, Prod.mk.injEq]
            refine ⟨?_, rfl⟩
            rw [hclen] at h1 h2
            omega
      · rw [if_neg hp]
        by_cases hn1 : (c.map Nat.digitChar).length > 1
        · rw [if_pos hn1]
          have ht2 : (1 : Nat) < c.length := by
            rw [hclen] at hn1
            omega
          rw [parseMag_dot_inside hne hd10 hh hl ht2, Prod.mk.injEq]
          refine ⟨?_, rfl⟩
          omega
        · rw [if_neg hn1, parseMag_digits hne hd10 hh hl, Prod.mk.injEq]
          refine ⟨?_, rfl⟩
          have hpos : 0 < c.length := List.length_pos.mpr hne
          rw [hclen] at hn1
          omega

/-- The canonical body splits as a `NUMERIC` mantissa followed by a
(possibly empty) `NUMERIC` exponent suffix. -/
theorem canonBody_split (e : Int) (hne : c ≠ []) (hd10 : ∀ d ∈ c, d < 10)
    (hh : c.head? ≠ some 0) (hl : c.getLast? ≠ some 0) :
    ∃ mant expo, canonBody e (c.map Nat.digitChar) = mant ++ expo ∧
      mantSpec mant ∧ expSpec expo := by
  obtain ⟨hdig, hhead, hlast, hval⟩ := digitsStr_facts hd10 hh hl
  have hDne : c.map Nat.digitChar ≠ [] := fun hx => hne (List.map_eq_nil_iff.mp hx)
  have htakene : ∀ t : Nat, 0 < t → (c.map Nat.digitChar).take t ≠ [] := by
    intro t ht hx
    rcases List.take_eq_nil_iff.mp hx with h | h
    · omega
    · exact hDne h
  have htakedig : ∀ t : Nat, ∀ ch ∈ (c.map Nat.digitChar).take t, isDigitCh ch = true :=
    fun t ch hch => hdig ch (List.take_subset t _ hch)
  have hdropdig : ∀ t : Nat, ∀ ch ∈ (c.map Nat.digitChar).drop t, isDigitCh ch = true :=
    fun t ch hch => hdig ch (List.drop_subset t _ hch)
  have hzerodig : ∀ k : Nat, ∀ ch ∈ List.replicate k '0', isDigitCh ch = true := by
    intro k ch hch
    rw [List.mem_replicate] at hch
    rw [hch.2]
    rfl
  unfold canonBody
  by_cases hw : e ≤ -7 ∨ e ≥ 21
  · rw [if_pos hw]
    by_cases hneg : e < 0
    · rw [if_pos hneg]
      have hR : intStr e = '-' :: natStr e.natAbs := by
        unfold intStr
        rw [if_pos hneg]
      rw [hR]
      by_cases hlen : (c.map Nat.digitChar).length > 1
      · rw [if_pos hlen]
        exact ⟨_, 'e' :: (['-'] ++ natStr e.natAbs), rfl,
          mantSpec_dot_run (htakene 1 one_pos) (htakedig 1) (hdropdig 1),
          expSpec_e_sign ['-'] (Or.inr (Or.inr rfl)) _⟩
      · rw [if_neg hlen]
        refine ⟨(c.map Nat.digitChar).take 1, 'e' :: (['-'] ++ natStr e.natAbs),
          by rw [List.append_nil]; rfl, ?_, expSpec_e_sign ['-'] (Or.inr (Or.inr rfl)) _⟩
        exact mantSpec_digit_run (htakene 1 one_pos) (htakedig 1)
    · rw [if_neg hneg]
      by_cases hlen : (c.map Nat.digitChar).length > 1
      · rw [if_pos hlen]
        exact ⟨_, 'e' :: (['+'] ++ natStr e.natAbs), rfl,
          mantSpec_dot_run (htakene 1 one_pos) (htakedig 1) (hdropdig 1),
          expSpec_e_sign ['+'] (Or.inr (Or.inl rfl)) _⟩
      · rw [if_neg hlen]
        refine ⟨(c.map Nat.digitChar).take 1, 'e' :: (['+'] ++ natStr e.natAbs),
          by rw [List.append_nil]; rfl, ?_, expSpec_e_sign ['+'] (Or.inr (Or.inl rfl)) _⟩
        exact mantSpec_digit_run (htakene 1 one_pos) (htakedig 1)
  · rw [if_neg hw]
    by_cases hneg : e < 0
    · rw [if_pos hneg]
      refine ⟨'0' :: '.' :: (List.replicate (-e - 1).toNat '0' ++ c.map Nat.digitChar), [],
        by rw [List.append_nil], ?_, Or.inl rfl⟩
      show mantSpec ((['0'] : Str) ++ '.' ::
        (List.replicate (-e - 1).toNat '0' ++ c.map Nat.digitChar))
      refine mantSpec_dot_run (by simp) ?_ ?_
      · intro ch hch
        rw [List.mem_singleton] at hch
        rw [hch]
        rfl
      · intro ch hch
        rcases List.mem_append.mp hch with hch | hch
        · exact hzerodig _ ch hch
        · exact hdig ch hch
    · rw [if_neg hneg]
      by_cases hp : e > 0
      · rw [if_pos hp]
        by_cases h1 : e + 1 > ((c.map Nat.digitChar).length : Int)
        · rw [if_pos h1]
          refine ⟨c.map Nat.digitChar ++
            List.replicate (e + 1 - (c.map Nat.digitChar).length).toNat '0', [],
            by rw [List.append_nil], ?_, Or.inl rfl⟩
          refine mantSpec_digit_run ?_ ?_
          · intro hx
            exact hDne (List.append_eq_nil.mp hx).1
          · intro ch hch
            rcases List.mem_append.mp hch with hch | hch
            · exact hdig ch hch
            · exact hzerodig _ ch hch
        · rw [if_neg h1]
          by_cases h2 : e + 1 < ((c.map Nat.digitChar).length : Int)
          · rw [if_pos h2]
            exact ⟨_, [], by rw [List.append_nil],
              mantSpec_dot_run (htakene _ (by omega)) (htakedig _) (hdropdig _),
              Or.inl rfl⟩
          · rw [if_neg h2]
            exact ⟨_, [], by rw [List.append_nil],
              mantSpec_digit_run hDne hdig, Or.inl rfl⟩
      · rw [if_neg hp]
        by_cases hn1 : (c.map Nat.digitChar).length > 1
        · rw [if_pos hn1]
          exact ⟨_, [], by rw [List.append_nil],
            mantSpec_dot_run (htakene 1 one_pos) (htakedig 1) (hdropdig 1),
            Or.inl rfl⟩
        · rw [if_neg hn1]
          exact ⟨_, [], by rw [List.append_nil],
            mantSpec_digit_run hDne hdig, Or.inl rfl⟩

end ParseMagBranches

/-- The digit-comparison loop is reflexive. -/
theorem cmpSeq_self (l : List Nat) : cmpSeq l l = 0 := by
  induction l with
  | nil => rfl
  | cons a t ih => simp [cmpSeq, ih]

/-- `cmp` is reflexive. -/
theorem cmp_refl (x : Big) : cmp x x = 0 := by
  unfold cmp
  by_cases hz : zeroRepr x
  · simp [hz]
  · simp [hz, cmpSeq_self]

/-- A digit run with a nonzero leading digit is not the zero
representation. -/
theorem zeroRepr_clean {x : Big} (hcne : x.c ≠ []) (hhd : x.c.head? ≠ some 0) :
    zeroRepr x = false := by
  unfold zeroRepr
  rw [decide_eq_false_iff_not]
  cases hc : x.c with
  | nil => exact absurd hc hcne
  | cons a t =>
    rw [hc] at hhd
    simp only [List.head?_cons, ne_eq, Option.some.injEq] at hhd
    simpa using hhd

/-- Claim C6: for every well-formed `Big`, parsing its canonical string
rendering succeeds and yields a value comparing equal to the original
(`cmp = 0`), including in exponential notation and for negative zero. -/
theorem toString_roundtrip (x : Big) (h : WellFormed x) :
    ∃ y, parse (stringifyCanon x) = .ok y ∧ cmp y x = 0 := by
  obtain ⟨hs, hzero | hpos⟩ := h
  · obtain ⟨hc, he⟩ := hzero
    have hzx : zeroRepr x = true := by
      unfold zeroRepr
      rw [hc]
      rfl
    have hstr : stringifyCanon x = canonBody x.e (x.c.map Nat.digitChar) := by
      unfold stringifyCanon
      rw [if_neg]
      intro hand
      rw [hzx] at hand
      exact hand.2 rfl
    have hstr2 : stringifyCanon x = ['0'] := by
      rw [hstr, hc, he]
      rfl
    refine ⟨⟨1, 0, [0]⟩, ?_, ?_⟩
    · rw [hstr2]
      rfl
    · unfold cmp
      rw [hzx, show zeroRepr ⟨1, 0, [0]⟩ = true from rfl]
      simp
  · obtain ⟨hcne, hd10, hhd, hlst⟩ := hpos
    have hzf : zeroRepr x = false := zeroRepr_clean hcne hhd
    obtain ⟨mant, expo, hbody, hm, hex⟩ := canonBody_split x.e hcne hd10 hhd hlst
    have hpm := canonBody_parseMag x.e hcne hd10 hhd hlst
    have hhne : (canonBody x.e (x.c.map Nat.digitChar)).head? ≠ some '-' := by
      rw [hbody]
      exact mant_app_head hm
    rcases hs with hs1 | hs1
    · have hstr : stringifyCanon x = canonBody x.e (x.c.map Nat.digitChar) := by
        unfold stringifyCanon
        rw [if_neg]
        intro hand
        rw [hs1] at hand
        exact absurd hand.1 (by norm_num)
      have hnum : numericTest (stringifyCanon x) = true := by
        rw [hstr, hbody]
        exact numericTest_complete ⟨[], mant, expo, by simp, Or.inl rfl, hm, hex⟩
      refine ⟨x, ?_, cmp_refl x⟩
      unfold parse
      rw [hnum, if_pos rfl]
      unfold parseCore
      rw [hstr, if_neg hhne, hpm]
      conv_rhs => rw [show x = (⟨x.s, x.e, x.c⟩ : Big) from rfl, hs1]
    · have hstr : stringifyCanon x = '-' :: canonBody x.e (x.c.map Nat.digitChar) := by
        unfold stringifyCanon
        rw [if_pos]
        refine ⟨?_, ?_⟩
        · rw [hs1]
          norm_num
        · rw [hzf]
          simp
      have hnum : numericTest (stringifyCanon x) = true := by
        rw [hstr, hbody]
        exact numericTest_complete ⟨['-'], mant, expo, rfl, Or.inr rfl, hm, hex⟩
      refine ⟨x, ?_, cmp_refl x⟩
      unfold parse
      rw [hnum, if_pos rfl]
      unfold parseCore
      rw [hstr,
        if_pos (show ('-' :: canonBody x.e (x.c.map Nat.digitChar)).head? = some '-' from rfl),
        show ('-' :: canonBody x.e (x.c.map Nat.digitChar)).tail =
          canonBody x.e (x.c.map Nat.digitChar) from rfl, hpm]
      conv_rhs => rw [show x = (⟨x.s, x.e, x.c⟩ : Big) from rfl, hs1]

/-- Closed instance of the round-trip theorem: a negative value rendered
in exponential notation. -/
theorem toString_roundtrip_witness :
    WellFormed ⟨-1, 22, [5]⟩ ∧
      ∃ y, parse (stringifyCanon ⟨-1, 22, [5]⟩) = .ok y ∧ cmp y ⟨-1, 22, [5]⟩ = 0 :=
  ⟨by decide, toString_roundtrip ⟨-1, 22, [5]⟩ (by decide)⟩

end CalcRepo
